import Mathlib

/-!
Shallow embedding of the cctoml TOML library (src/include/cctoml.h and
src/src/cctoml.cc) and proofs about the claims of its specification.

Modelling conventions:
* C++ `std::string` / `std::string_view` data is modelled as `List Char`;
  all claim inputs are ASCII, where Unicode scalar positions coincide with
  byte positions.
* Exceptions are modelled with `Except Err`; each distinct throw site in
  the source gets its own `Msg` constructor named after the message text.
* IEEE-754 doubles are modelled as exact rationals `Q` (an unnormalized
  numerator/denominator pair, so that every operation reduces inside the
  Lean kernel).  Every finite double is such a rational, and each double
  operation appearing in the source (`std::floor`, `std::abs`, comparisons
  against decimal constants, correctly rounded decimal printing and exact
  decimal reading) is a function of that rational value.  Binary rounding
  of `from_chars` is not modelled: the model reads decimals exactly.
* All loops are written with an explicit `fuel` argument (the C++ loops
  advance the position each iteration, so any fuel larger than the input
  length reproduces the source behaviour); running out of fuel returns a
  dedicated error that concrete runs never reach.
-/

namespace cctoml

abbrev Chars := List Char

/-- Byte value of a character (ASCII for all claim-relevant inputs). -/
def cbyte (c : Char) : Nat := c.toNat

/-- The macro IS_DIGIT(c) from cctoml.cc. -/
def isDigitCh (c : Char) : Bool := 48 ≤ cbyte c && cbyte c ≤ 57

/-- std::isalnum in the C locale. -/
def isAlnumCh (c : Char) : Bool :=
  isDigitCh c || (65 ≤ cbyte c && cbyte c ≤ 90) || (97 ≤ cbyte c && cbyte c ≤ 122)

/-- std::isxdigit in the C locale. -/
def isXDigitCh (c : Char) : Bool :=
  isDigitCh c || (65 ≤ cbyte c && cbyte c ≤ 70) || (97 ≤ cbyte c && cbyte c ≤ 102)

/-- Value of one hexadecimal digit. -/
def hexVal (c : Char) : Nat :=
  if 97 ≤ cbyte c then cbyte c - 87
  else if 65 ≤ cbyte c then cbyte c - 55
  else cbyte c - 48

/-- data[pos] as an optional read (C++ reads are in bounds on all paths
the parser actually takes; an out-of-bounds read is undefined behaviour in
the source and is mapped to `none` by callers). -/
def chAt (data : Chars) (pos : Nat) : Option Char := data.get? pos

/-- data.substr(pos, len) (clamping, like std::string_view::substr). -/
def subArr (data : Chars) (pos len : Nat) : Chars := (data.drop pos).take len

/-- Decimal digits of a natural number, most significant first
(fuel-based so that the kernel can evaluate it). -/
def natDigitsAux : Nat → Nat → Chars → Chars
  | 0, _, acc => acc
  | fuel+1, n, acc =>
      if n < 10 then Nat.digitChar n :: acc
      else natDigitsAux fuel (n / 10) (Nat.digitChar (n % 10) :: acc)

/-- Decimal representation of a natural number, e.g. `natDigits 120 = "120".toList`. -/
def natDigits (n : Nat) : Chars := natDigitsAux (n + 1) n []

/-- Decimal representation of an integer, as `operator<<(std::ostream, int64_t)`
prints it: a minus sign for negative values, no plus sign, no leading zeros. -/
def intChars (n : Int) : Chars :=
  (if n < 0 then ['-'] else []) ++ natDigits n.natAbs

/-- Value of a list of decimal digit characters (accumulator style). -/
def digitsVal (l : Chars) : Nat := l.foldl (fun a c => a * 10 + (cbyte c - 48)) 0

/-- Left-pad a digit string with zeros up to the given width. -/
def padLeft (l : Chars) (width : Nat) : Chars :=
  List.replicate (width - l.length) '0' ++ l

/-!  Exact rationals standing for finite IEEE doubles.  The pair is kept
unnormalized (no gcd), so all operations reduce in the kernel.  The
denominator is positive on every value the embedding builds. -/

structure Q where
  num : Int
  den : Nat
deriving DecidableEq

def qOfInt (n : Int) : Q := ⟨n, 1⟩

def qAbs (q : Q) : Q := ⟨q.num.natAbs, q.den⟩

def qNegB (q : Q) : Bool := q.num < 0

/-- Semantic equality of two rationals (cross multiplication). -/
def qBeq (a b : Q) : Bool := a.num * (b.den : Int) = b.num * (a.den : Int)

/-- a ≤ b (denominators positive). -/
def qLE (a b : Q) : Bool := a.num * (b.den : Int) ≤ b.num * (a.den : Int)

/-- a < b (denominators positive). -/
def qLT (a b : Q) : Bool := a.num * (b.den : Int) < b.num * (a.den : Int)

/-- q * 10^k for an integer k. -/
def qMulPow10 (q : Q) (k : Int) : Q :=
  if 0 ≤ k then ⟨q.num * (10 : Int) ^ k.toNat, q.den⟩
  else ⟨q.num, q.den * 10 ^ (-k).toNat⟩

/-- std::floor on the rational value of a double. -/
def qFloor (q : Q) : Int := q.num / (q.den : Int)

/-- Whether q is an integer value (num == std::floor(num)). -/
def qIsIntB (q : Q) : Bool := q.num % (q.den : Int) = 0

/-- Round to the nearest integer, ties to even (the correctly rounded
decimal conversion used by the C++ standard library printing). -/
def rne (q : Q) : Int :=
  let f := q.num / (q.den : Int)
  let r2 : Int := 2 * (q.num - f * q.den)
  if r2 < (q.den : Int) then f
  else if (q.den : Int) < r2 then f + 1
  else if f % 2 = 0 then f else f + 1

/-- Fuel-based floor of log10 for naturals (digit count minus one). -/
def natLog10Aux : Nat → Nat → Nat
  | 0, _ => 0
  | fuel+1, n => if n < 10 then 0 else natLog10Aux fuel (n / 10) + 1

def natLog10 (n : Nat) : Nat := natLog10Aux n n

/-- floor(log10(q)) for a positive rational: the unique E with
10^E ≤ q < 10^(E+1), computed from digit counts and corrected by
direct comparison. -/
def floorLog10 (q : Q) : Int :=
  let e : Int := (natLog10 q.num.natAbs : Int) - (natLog10 q.den : Int)
  if qLE (qMulPow10 (qOfInt 1) (e + 1)) q then e + 1
  else if qLT q (qMulPow10 (qOfInt 1) e) then e - 1
  else e

/-!  TomlDate: the bit-packed date/time value of cctoml.h. -/

inductive TomlDateTimeType where
  | INVALID
  | OFFSET_DATE_TIME
  | LOCAL_DATE_TIME
  | LOCAL_DATE
  | LOCAL_TIME
deriving DecidableEq

/-- The TomlDate value: a type tag, the 64-bit packed core word and the
sub-second nanosecond count, exactly as in cctoml.h. -/
structure TomlDate where
  m_type : TomlDateTimeType
  m_core : Nat
  m_subSecond : Int
deriving DecidableEq

namespace TomlDate

/-- setBits of cctoml.h: store `value` (truncated to `bitCount` bits, two's
complement) at `startBit` of `target`. -/
def setBits (target : Nat) (value : Int) (startBit bitCount : Nat) : Nat :=
  let v : Nat := (value % ((2 : Int) ^ bitCount)).toNat
  (target / 2 ^ (startBit + bitCount)) * 2 ^ (startBit + bitCount)
    + v * 2 ^ startBit + target % 2 ^ startBit

/-- getBits of cctoml.h. -/
def getBits (source : Nat) (startBit bitCount : Nat) : Nat :=
  (source / 2 ^ startBit) % 2 ^ bitCount

/-- getSignedBits of cctoml.h. -/
def getSignedBits (source : Nat) (startBit bitCount : Nat) : Int :=
  let raw := getBits source startBit bitCount
  if raw < 2 ^ (bitCount - 1) then (raw : Int) else (raw : Int) - (2 : Int) ^ bitCount

def setYear (d : TomlDate) (year : Int) : TomlDate :=
  { d with m_core := setBits d.m_core year 48 16 }

def setMonth (d : TomlDate) (month : Int) : TomlDate :=
  { d with m_core := setBits d.m_core month 44 4 }

def setDay (d : TomlDate) (day : Int) : TomlDate :=
  { d with m_core := setBits d.m_core day 39 5 }

def setHour (d : TomlDate) (hour : Int) : TomlDate :=
  { d with m_core := setBits d.m_core hour 34 5 }

def setMinute (d : TomlDate) (minute : Int) : TomlDate :=
  { d with m_core := setBits d.m_core minute 28 6 }

def setSecond (d : TomlDate) (second : Int) : TomlDate :=
  { d with m_core := setBits d.m_core second 22 6 }

def setTzOffset (d : TomlDate) (tz : Int) : TomlDate :=
  { d with m_core := setBits d.m_core tz 11 11 }

def hasDate (d : TomlDate) : Bool :=
  d.m_type = TomlDateTimeType.LOCAL_DATE || d.m_type = TomlDateTimeType.LOCAL_DATE_TIME
    || d.m_type = TomlDateTimeType.OFFSET_DATE_TIME

def hasTime (d : TomlDate) : Bool :=
  d.m_type = TomlDateTimeType.LOCAL_TIME || d.m_type = TomlDateTimeType.LOCAL_DATE_TIME
    || d.m_type = TomlDateTimeType.OFFSET_DATE_TIME

def getYear (d : TomlDate) : Option Int :=
  if hasDate d then some (getSignedBits d.m_core 48 16) else none

def getMonth (d : TomlDate) : Option Int :=
  if hasDate d then some (getBits d.m_core 44 4) else none

def getDay (d : TomlDate) : Option Int :=
  if hasDate d then some (getBits d.m_core 39 5) else none

def getHour (d : TomlDate) : Option Int :=
  if hasTime d then some (getBits d.m_core 34 5) else none

def getMinute (d : TomlDate) : Option Int :=
  if hasTime d then some (getBits d.m_core 28 6) else none

def getSecond (d : TomlDate) : Option Int :=
  if hasTime d then some (getBits d.m_core 22 6) else none

def getSubSecond (d : TomlDate) : Option Int :=
  if d.m_subSecond ≠ -1 && hasTime d then
    some (d.m_subSecond % ((2 : Int) ^ 30))
  else none

def getTzOffset (d : TomlDate) : Option Int :=
  if d.m_type = TomlDateTimeType.OFFSET_DATE_TIME then
    some (getSignedBits d.m_core 11 11)
  else none

def isOffsetDateTime (d : TomlDate) : Bool :=
  d.m_type = TomlDateTimeType.OFFSET_DATE_TIME

/-- A freshly reset TomlDate. -/
def reset : TomlDate := ⟨TomlDateTimeType.INVALID, 0, 0⟩

end TomlDate

/-- One constructor per distinct exception message in the source. -/
inductive Msg where
  | dotMustBeFollowedByDigits
  | invalidFractionalSecond
  | invalidTimezoneOffsetHour
  | invalidTimezoneOffsetMinute
  | invalidSeparatorAfterDate
  | cannotParseEmptyString
  | noValidDateTimeFormat
  | notAString
  | notADate
  | notAArray
  | notAObject
  | negativeArrayIndex
  | arrayIndexOutOfRange
  | keyNotFound
  | controlCharInComment
  | expectedTrueOrFalse
  | invalidKey
  | unexpectedContentAfterTomlValue
  | expectEqAfterKey
  | lineBreakRequired
  | invalidValue
  | signFollowedByDot
  | signOnlyInDecimal
  | leadingZerosNotAllowed
  | underscoreMustBeFollowedByDigit
  | dotFollowedByUnderscore
  | expectedDigitsAfterDot
  | expectedDigitsAfterExponentUnderscore
  | expectedDigitsAfterExponent
  | underscoreAtStartOrEnd
  | invalidFloat
  | invalidInteger
  | unexpectedValueAfterEmptyArrayElement
  | unclosedArray
  | cannotCreateNestedKey
  | cannotInsertTargetNotObject
  | unclosedObject
  | notAStringValue
  | unexpectedEndInUnicodeEscape
  | invalidHexadecimalString
  | invalidUnicodeCodePoint
  | controlCharInBasicString
  | invalidEscape
  | unknownEscape
  | lineWrappingNotAllowed
  | unterminatedBasicString
  | threeQuotesInMultiBasic
  | controlCharInMultiBasic
  | unknownEscapeInMultiLine
  | unterminatedMultiBasic
  | controlCharInLiteralString
  | unterminatedLiteralString
  | threeQuotesInMultiLiteral
  | controlCharInMultiLiteral
  | unterminatedMultiLiteral
  | nodeIsNotAObject
  | keyHasExisted
  | expectedTableHeader
  | expectedObjectInPath
  | cannotInsertKeyOnNonObject
  | duplicateKey
  | nodeShouldBeArrayOrObject
  | nodeIsNotAArray
  | fuelExhausted
  | emptyKeyPath
  | dateTimeError (inner : Msg)

/-- TomlParseException (with byte position) or plain TomlException. -/
inductive Err where
  | pe (m : Msg) (pos : Nat)
  | te (m : Msg)

namespace TomlDate

/-- Skip a run of decimal digits starting at pos, return the new position. -/
def scanDigitsAux : Nat → Chars → Nat → Nat
  | 0, _, pos => pos
  | fuel+1, sv, pos =>
      match chAt sv pos with
      | some c => if isDigitCh c then scanDigitsAux fuel sv (pos + 1) else pos
      | none => pos

def scanDigits (sv : Chars) (pos : Nat) : Nat := scanDigitsAux (sv.length + 1) sv pos

/-- ParseDigits of cctoml.cc: read exactly `count` digits at `pos`. -/
def ParseDigitsGo (sv : Chars) : Nat → Nat → Nat → Option Nat
  | pos, 0, acc => some acc
  | pos, c+1, acc =>
      match chAt sv pos with
      | some ch =>
          if isDigitCh ch then ParseDigitsGo sv (pos + 1) c (acc * 10 + (cbyte ch - 48))
          else none
      | none => none

def ParseDigits (sv : Chars) (pos count : Nat) : Option (Nat × Nat) :=
  if pos + count > sv.length then none
  else (ParseDigitsGo sv pos count 0).map (fun v => (v, pos + count))

/-- parseSubSecond of cctoml.cc: digits after the dot, padded/truncated to
nine digits (nanoseconds). -/
def parseSubSecond (sv : Chars) (pos : Nat) : Except Err (Int × Nat) :=
  let fracStart := pos
  let pos := scanDigits sv pos
  if pos = fracStart then .error (.te .dotMustBeFollowedByDigits)
  else
    let sub := subArr sv fracStart (pos - fracStart)
    let sub9 := (sub ++ List.replicate 9 '0').take 9
    .ok ((digitsVal sub9 : Int), pos)

/-- parseTimezoneOffset of cctoml.cc. -/
def parseTimezoneOffset (sv : Chars) (pos : Nat) (d : TomlDate) :
    Except Err (TomlDate × Nat) :=
  match chAt sv pos with
  | none => .ok (d, pos)
  | some offsetChar =>
    if offsetChar = 'Z' ∨ offsetChar = 'z' then
      .ok ({ (d.setTzOffset 0) with m_type := TomlDateTimeType.OFFSET_DATE_TIME }, pos + 1)
    else if offsetChar ≠ '+' ∧ offsetChar ≠ '-' then .ok (d, pos)
    else
      let pos := pos + 1
      match ParseDigits sv pos 2 with
      | none => .error (.te .invalidTimezoneOffsetHour)
      | some (offsetHour, pos) =>
        if offsetHour > 23 ∨ chAt sv pos ≠ some ':' then
          .error (.te .invalidTimezoneOffsetHour)
        else
          let pos := pos + 1
          match ParseDigits sv pos 2 with
          | none => .error (.te .invalidTimezoneOffsetMinute)
          | some (offsetMinute, pos) =>
            if offsetMinute > 59 then .error (.te .invalidTimezoneOffsetMinute)
            else
              let sign : Int := if offsetChar = '+' then 1 else -1
              .ok ({ (d.setTzOffset (sign * (offsetHour * 60 + offsetMinute))) with
                       m_type := TomlDateTimeType.OFFSET_DATE_TIME }, pos + 1)

/-- parseTimePart of cctoml.cc; `none` models a `false` return. -/
def parseTimePart (sv : Chars) (pos : Nat) (d : TomlDate) :
    Except Err (Option TomlDate) :=
  match ParseDigits sv pos 2 with
  | none => .ok none
  | some (hour, pos) =>
    if hour > 23 ∨ chAt sv pos ≠ some ':' then .ok none
    else
      let pos := pos + 1
      match ParseDigits sv pos 2 with
      | none => .ok none
      | some (minute, pos) =>
        if minute > 59 ∨ chAt sv pos ≠ some ':' then .ok none
        else
          let pos := pos + 1
          match ParseDigits sv pos 2 with
          | none => .ok none
          | some (second, pos) =>
            if second > 59 then .ok none
            else
              let d := { (((d.setHour hour).setMinute minute).setSecond second) with
                           m_type := TomlDateTimeType.LOCAL_DATE_TIME }
              let step : Except Err (TomlDate × Nat) :=
                if chAt sv pos = some '.' then
                  match parseSubSecond sv (pos + 1) with
                  | .error e => .error e
                  | .ok (sub, pos) => .ok ({ d with m_subSecond := sub }, pos)
                else .ok (d, pos)
              match step with
              | .error e => .error e
              | .ok (d, pos) =>
                let step2 : Except Err (TomlDate × Nat) :=
                  if pos < sv.length then parseTimezoneOffset sv pos d else .ok (d, pos)
                match step2 with
                | .error e => .error e
                | .ok (d, pos) => .ok (if pos = sv.length then some d else none)

/-- parseLocalTime of cctoml.cc; `none` models a `false` return. -/
def parseLocalTime (sv : Chars) : Except Err (Option TomlDate) :=
  let d := reset
  let pos := 0
  match ParseDigits sv pos 2 with
  | none => .ok none
  | some (hour, pos) =>
    if hour > 23 ∨ chAt sv pos ≠ some ':' then .ok none
    else
      let pos := pos + 1
      match ParseDigits sv pos 2 with
      | none => .ok none
      | some (minute, pos) =>
        if minute > 59 ∨ chAt sv pos ≠ some ':' then .ok none
        else
          let pos := pos + 1
          match ParseDigits sv pos 2 with
          | none => .ok none
          | some (second, pos) =>
            if second > 59 then .ok none
            else
              let d := { (((d.setHour hour).setMinute minute).setSecond second) with
                           m_type := TomlDateTimeType.LOCAL_TIME }
              let step : Except Err (TomlDate × Nat) :=
                if chAt sv pos = some '.' then
                  match parseSubSecond sv (pos + 1) with
                  | .error e => .error e
                  | .ok (sub, pos) => .ok ({ d with m_subSecond := sub }, pos)
                else .ok (d, pos)
              match step with
              | .error e => .error e
              | .ok (d, pos) => .ok (if pos = sv.length then some d else none)

/-- daysInMonth array of parseDateTime. -/
def daysInMonth (m : Nat) : Nat :=
  [31, 28, 31, 30, 31, 30, 31, 31, 30, 31, 30, 31].getD (m - 1) 31

/-- parseDateTime of cctoml.cc; `none` models a `false` return, errors model
thrown TomlExceptions. -/
def parseDateTime (sv : Chars) : Except Err (Option TomlDate) :=
  let d := reset
  let pos := 0
  match ParseDigits sv pos 4 with
  | none => .ok none
  | some (year, pos) =>
    if chAt sv pos ≠ some '-' then .ok none
    else
      let pos := pos + 1
      match ParseDigits sv pos 2 with
      | none => .ok none
      | some (month, pos) =>
        if month < 1 ∨ month > 12 ∨ chAt sv pos ≠ some '-' then .ok none
        else
          let pos := pos + 1
          match ParseDigits sv pos 2 with
          | none => .ok none
          | some (day, pos) =>
            if day < 1 then .ok none
            else
              let isLeapYear : Bool :=
                (year % 4 = 0 && year % 100 ≠ 0) || year % 400 = 0
              let maxDays : Nat :=
                if month = 2 && isLeapYear then 29 else daysInMonth month
              if day > maxDays then .ok none
              else
                let d := { (((d.setYear year).setMonth month).setDay day) with
                             m_type := TomlDateTimeType.LOCAL_DATE }
                if pos = sv.length then .ok (some d)
                else
                  match chAt sv pos with
                  | none => .ok none
                  | some sep =>
                    if sep ≠ 'T' ∧ sep ≠ 't' ∧ sep ≠ ' ' then
                      .error (.te .invalidSeparatorAfterDate)
                    else parseTimePart sv (pos + 1) d

/-- TomlDate::parse of cctoml.cc: try the date-time grammar, then the
local-time grammar, else fail. -/
def parse (sv : Chars) : Except Err TomlDate :=
  if sv.isEmpty then .error (.te .cannotParseEmptyString)
  else
    match parseDateTime sv with
    | .error e => .error e
    | .ok (some d) => .ok d
    | .ok none =>
      match parseLocalTime sv with
      | .error e => .error e
      | .ok (some d) => .ok d
      | .ok none => .error (.te .noValidDateTimeFormat)

/-- Drop trailing zero characters (TOML sub-second canonical form). -/
def dropTrailingZeros (l : Chars) : Chars :=
  (l.reverse.dropWhile (fun c => c == '0')).reverse

/-- Zero-padded field of the given width (std::setw with setfill zero). -/
def padNum (n : Int) (width : Nat) : Chars := padLeft (natDigits n.natAbs) width

/-- TomlDate::toString of cctoml.cc (canonical textual form). -/
def toChars (d : TomlDate) : Chars :=
  let datePart : Chars :=
    match d.getYear with
    | some y =>
      let month := (d.getMonth).getD 0
      let day := (d.getDay).getD 0
      padNum y 4 ++ '-' :: padNum month 2 ++ '-' :: padNum day 2
        ++ (if (d.getHour).isSome then ['T'] else [])
    | none => []
  let timePart : Chars :=
    match d.getHour with
    | some h =>
      let minute := (d.getMinute).getD 0
      let second := (d.getSecond).getD 0
      padNum h 2 ++ ':' :: padNum minute 2 ++ ':' :: padNum second 2
    | none => []
  let subPart : Chars :=
    match d.getSubSecond with
    | some s =>
      if s > 0 then '.' :: dropTrailingZeros (padLeft (natDigits s.toNat) 9)
      else []
    | none => []
  let tzPart : Chars :=
    match d.getTzOffset with
    | some t =>
      if t = 0 then ['Z']
      else
        (if t > 0 then ['+'] else ['-'])
          ++ padNum ((t.natAbs : Int) / 60) 2 ++ ':' :: padNum ((t.natAbs : Int) % 60) 2
    | none => []
  datePart ++ timePart ++ subPart ++ tzPart

end TomlDate

end cctoml

namespace cctoml

/-!  The document value model: TomlValue of cctoml.h.  `TomlObject` is
`std::map<std::string, TomlValue>`, modelled as an association list kept
sorted by the lexicographic byte order of the keys (the map iteration
order).  A double is a `FloatVal`: an exact rational or one of the three
special values. -/

inductive FloatVal where
  | finite (q : Q)
  | inf
  | neginf
  | nan

/-- std::string operator< (lexicographic). -/
def ltChars : Chars → Chars → Bool
  | [], [] => false
  | [], _ :: _ => true
  | _ :: _, [] => false
  | a :: as, b :: bs =>
      if cbyte a < cbyte b then true
      else if cbyte b < cbyte a then false
      else ltChars as bs

inductive TomlValue where
  | boolean (b : Bool)
  | integer (n : Int)
  | double (f : FloatVal)
  | str (s : Chars)
  | date (d : TomlDate)
  | array (xs : List TomlValue)
  | object (m : List (Chars × TomlValue))

namespace TomlValue

/-- The default-constructed TomlValue: an empty object (table). -/
def defaultV : TomlValue := .object []

/-- std::map::find returning the mapped value. -/
def objFind : List (Chars × TomlValue) → Chars → Option TomlValue
  | [], _ => none
  | (k0, v0) :: rest, k => if k = k0 then some v0 else objFind rest k

/-- std::map insert-or-assign (operator[] followed by assignment), keeping
the association list sorted by key. -/
def objSet : List (Chars × TomlValue) → Chars → TomlValue → List (Chars × TomlValue)
  | [], k, v => [(k, v)]
  | (k0, v0) :: rest, k, v =>
      if ltChars k k0 then (k, v) :: (k0, v0) :: rest
      else if ltChars k0 k then (k0, v0) :: objSet rest k v
      else (k0, v) :: rest

def isArrayB : TomlValue → Bool
  | .array _ => true
  | _ => false

def isObjectB : TomlValue → Bool
  | .object _ => true
  | _ => false

/-- asObject (non-const): throws TomlException when not an object. -/
def asObjectE : TomlValue → Except Err (List (Chars × TomlValue))
  | .object m => .ok m
  | _ => .error (.te .notAObject)

/-- asArray (non-const): throws TomlException when not an array. -/
def asArrayE : TomlValue → Except Err (List TomlValue)
  | .array xs => .ok xs
  | _ => .error (.te .notAArray)

/-- TomlValue::insert of cctoml.cc: a non-object receiver is destroyed and
replaced by an empty object before the key is assigned. -/
def insert (v : TomlValue) (key : Chars) (val : TomlValue) : TomlValue :=
  match v with
  | .object m => .object (objSet m key val)
  | _ => .object (objSet [] key val)

/-- TomlValue::push_back of cctoml.cc: a non-array receiver is destroyed
and replaced by an empty array before the element is appended. -/
def push_back (v : TomlValue) (val : TomlValue) : TomlValue :=
  match v with
  | .array xs => .array (xs ++ [val])
  | _ => .array [val]

/-- Non-const integral operator[] of cctoml.h: asArray() first (throws on a
non-array), then a negative index throws, and an index at or past the size
resizes the array with default-constructed (empty object) elements.  The
result is the updated receiver together with the referenced element. -/
def indexMut (v : TomlValue) (key : Int) : Except Err (TomlValue × TomlValue) :=
  match asArrayE v with
  | .error e => .error e
  | .ok arr =>
    if 0 ≤ key then
      let arr :=
        if arr.length ≤ key.toNat then
          arr ++ List.replicate (key.toNat + 1 - arr.length) defaultV
        else arr
      .ok (.array arr, arr.getD key.toNat defaultV)
    else .error (.te .negativeArrayIndex)

/-- Const integral operator[] of cctoml.h: throws for any out-of-range
index. -/
def indexConst (v : TomlValue) (key : Int) : Except Err TomlValue :=
  match asArrayE v with
  | .error e => .error e
  | .ok arr =>
    if 0 ≤ key ∧ key.toNat < arr.length then .ok (arr.getD key.toNat defaultV)
    else .error (.te .arrayIndexOutOfRange)

/-- Non-const operator[](string) of cctoml.h: map operator[], which
default-inserts an empty object for a missing key; the receiver must be an
object.  Returns the updated receiver and the referenced element. -/
def indexStr (v : TomlValue) (key : Chars) : Except Err (TomlValue × TomlValue) :=
  match asObjectE v with
  | .error e => .error e
  | .ok m =>
    let child := (objFind m key).getD defaultV
    .ok (.object (objSet m key child), child)

end TomlValue

end cctoml

namespace cctoml

/-!  Scanner primitives of cctoml.cc (§ skipWhitespace .. skipUselessChar). -/

def skipWhitespaceAux : Nat → Chars → Nat → Nat
  | 0, _, pos => pos
  | fuel+1, data, pos =>
      match chAt data pos with
      | some c => if c = ' ' ∨ c = '\t' then skipWhitespaceAux fuel data (pos + 1) else pos
      | none => pos

/-- skipWhitespace of cctoml.cc. -/
def skipWhitespace (data : Chars) (pos : Nat) : Nat :=
  skipWhitespaceAux (data.length + 1) data pos

/-- The comment-scanning inner loop of skipWhitespaceAndComment. -/
def skipCommentAux : Nat → Chars → Nat → Except Err Nat
  | 0, _, pos => .error (.pe .fuelExhausted pos)
  | fuel+1, data, pos =>
      match chAt data pos with
      | none => .ok pos
      | some c =>
          if c = '\n' ∨ c = '\r' then .ok pos
          else if (cbyte c ≤ 0x1F ∧ c ≠ '\t') ∨ cbyte c = 0x7F then
            .error (.pe .controlCharInComment pos)
          else skipCommentAux fuel data (pos + 1)

/-- skipWhitespaceAndComment of cctoml.cc (the outer while either returns
directly, returns from inside the comment loop at a newline, or leaves the
loop with the input exhausted). -/
def skipWhitespaceAndComment (data : Chars) (pos : Nat) : Except Err Nat :=
  if pos < data.length then
    let pos := skipWhitespace data pos
    if chAt data pos = some '#' then skipCommentAux (data.length + 1) data (pos + 1)
    else .ok pos
  else .ok pos

/-- skipCrlf of cctoml.cc: CRLF or bare LF only. -/
def skipCrlf (data : Chars) (pos : Nat) : Nat :=
  if chAt data pos = some '\r' ∧ chAt data (pos + 1) = some '\n' then pos + 2
  else if chAt data pos = some '\n' then pos + 1
  else pos

def skipUselessCharAux : Nat → Chars → Nat → Except Err Nat
  | 0, _, pos => .error (.pe .fuelExhausted pos)
  | fuel+1, data, pos =>
      if pos < data.length then do
        let start := pos
        let pos ← skipWhitespaceAndComment data pos
        let pos := skipCrlf data pos
        if pos ≤ start then .ok pos else skipUselessCharAux fuel data pos
      else .ok pos

/-- skipUselessChar of cctoml.cc. -/
def skipUselessChar (data : Chars) (pos : Nat) : Except Err Nat :=
  skipUselessCharAux (data.length + 1) data pos

def skipAllAux : Nat → Chars → Nat → Except Err Nat
  | 0, _, pos => .error (.pe .fuelExhausted pos)
  | fuel+1, data, pos =>
      if pos < data.length then do
        let pos ← skipWhitespaceAndComment data pos
        let pos := skipCrlf data pos
        if pos < data.length then
          match chAt data pos with
          | some c =>
              if c ≠ '#' ∧ c ≠ ' ' ∧ c ≠ '\t' ∧ c ≠ '\r' ∧ c ≠ '\n' then .ok pos
              else skipAllAux fuel data pos
          | none => skipAllAux fuel data pos
        else skipAllAux fuel data pos
      else .ok pos

/-- skipAll of cctoml.cc (whitespace, comments and newlines inside arrays). -/
def skipAll (data : Chars) (pos : Nat) : Except Err Nat :=
  skipAllAux (data.length + 1) data pos

/-!  Lexical parsers of cctoml.cc. -/

/-- parseBoolean of cctoml.cc. -/
def parseBoolean (data : Chars) (pos : Nat) : Except Err (TomlValue × Nat) :=
  if subArr data pos 4 = ("true").toList then .ok (.boolean true, pos + 4)
  else if subArr data pos 5 = ("false").toList then .ok (.boolean false, pos + 5)
  else .error (.pe .expectedTrueOrFalse pos)

def parseBareKeyAux : Nat → Chars → Nat → Nat → Bool → Except Err (Chars × Nat)
  | 0, _, _, pos, _ => .error (.pe .fuelExhausted pos)
  | fuel+1, data, start, pos, isTable =>
      match chAt data pos with
      | some c =>
          if isAlnumCh c ∨ c = '_' ∨ c = '-' then
            parseBareKeyAux fuel data start (pos + 1) isTable
          else if c = '=' ∨ c = ' ' ∨ c = '\t' ∨ c = '.' ∨ (isTable ∧ c = ']') then
            if pos - start = 0 then .error (.pe .invalidKey pos)
            else .ok (subArr data start (pos - start), pos)
          else .error (.pe .unexpectedContentAfterTomlValue pos)
      | none => .error (.pe .unexpectedContentAfterTomlValue pos)

/-- parseBareKey of cctoml.cc. -/
def parseBareKey (data : Chars) (pos : Nat) (isTable : Bool) : Except Err (Chars × Nat) :=
  parseBareKeyAux (data.length + 1) data pos pos isTable

/-- parseUnicodeString of cctoml.cc (a `\u`/`\U` escape; the decoded code
point is stored as one scalar in the model instead of UTF-8 bytes). -/
def parseUnicodeString (data : Chars) (pos : Nat) : Except Err (Chars × Nat) :=
  let hexLength : Nat := if chAt data pos = some 'u' then 4 else 8
  let pos := pos + 1
  if pos + hexLength ≥ data.length then .error (.pe .unexpectedEndInUnicodeEscape pos)
  else
    let hex := subArr data pos hexLength
    let pos := pos + hexLength
    let (sgn, ds) : Int × Chars :=
      match hex with
      | '-' :: rest => (-1, rest)
      | _ => (1, hex)
    if ds.isEmpty ∨ ¬ ds.all isXDigitCh then .error (.pe .invalidHexadecimalString pos)
    else
      let v : Int := sgn * (ds.foldl (fun a c => a * 16 + hexVal c) 0 : Nat)
      if v > 0x7FFFFFFF then .error (.pe .invalidHexadecimalString pos)
      else if v > 0x10FFFF ∨ (0xD800 ≤ v ∧ v ≤ 0xDFFF) then
        .error (.pe .invalidUnicodeCodePoint pos)
      else .ok ([Char.ofNat v.toNat], pos)

def parseBasicStringAux : Nat → Chars → Nat → Chars → Except Err (Chars × Nat)
  | 0, _, pos, _ => .error (.pe .fuelExhausted pos)
  | fuel+1, data, pos, acc =>
      match chAt data pos with
      | none => .error (.pe .unterminatedBasicString pos)
      | some c =>
          if c = '"' then .ok (acc, pos + 1)
          else if (cbyte c ≤ 0x08 ∨ (0x0A ≤ cbyte c ∧ cbyte c ≤ 0x1F) ∨ cbyte c = 0x7F)
              ∧ c ≠ '\t' then
            .error (.pe .controlCharInBasicString pos)
          else if c = '\\' then
            let pos := pos + 1
            match chAt data pos with
            | none => .error (.pe .invalidEscape pos)
            | some esc =>
                let pos := pos + 1
                if esc = 'b' then parseBasicStringAux fuel data pos (acc ++ ['\x08'])
                else if esc = 't' then parseBasicStringAux fuel data pos (acc ++ ['\t'])
                else if esc = 'n' then parseBasicStringAux fuel data pos (acc ++ ['\n'])
                else if esc = 'f' then parseBasicStringAux fuel data pos (acc ++ ['\x0c'])
                else if esc = 'r' then parseBasicStringAux fuel data pos (acc ++ ['\r'])
                else if esc = '"' then parseBasicStringAux fuel data pos (acc ++ ['"'])
                else if esc = '\\' then parseBasicStringAux fuel data pos (acc ++ ['\\'])
                else if esc = 'u' ∨ esc = 'U' then
                  match parseUnicodeString data (pos - 1) with
                  | .error e => .error e
                  | .ok (s, pos) => parseBasicStringAux fuel data pos (acc ++ s)
                else .error (.pe .unknownEscape pos)
          else if c = '\r' ∨ c = '\n' then .error (.pe .lineWrappingNotAllowed pos)
          else parseBasicStringAux fuel data (pos + 1) (acc ++ [c])

/-- parseBasicString of cctoml.cc. -/
def parseBasicString (data : Chars) (pos : Nat) : Except Err (Chars × Nat) :=
  parseBasicStringAux (data.length + 1) data (pos + 1) []

def parseLiteralStringAux : Nat → Chars → Nat → Chars → Except Err (Chars × Nat)
  | 0, _, pos, _ => .error (.pe .fuelExhausted pos)
  | fuel+1, data, pos, acc =>
      match chAt data pos with
      | none => .error (.pe .unterminatedLiteralString pos)
      | some c =>
          if c = '\'' then .ok (acc, pos + 1)
          else if c = '\r' ∨ c = '\n' then .error (.pe .lineWrappingNotAllowed pos)
          else if cbyte c ≤ 0x1F ∧ c ≠ '\t' then .error (.pe .controlCharInLiteralString pos)
          else if cbyte c = 0x7F then .error (.pe .controlCharInLiteralString pos)
          else parseLiteralStringAux fuel data (pos + 1) (acc ++ [c])

/-- parseLiteralString of cctoml.cc. -/
def parseLiteralString (data : Chars) (pos : Nat) : Except Err (Chars × Nat) :=
  parseLiteralStringAux (data.length + 1) data (pos + 1) []

/-- MATCH3 of cctoml.cc. -/
def match3 (data : Chars) (pos : Nat) (c : Char) : Bool :=
  pos + 2 < data.length ∧ chAt data pos = some c ∧ chAt data (pos + 1) = some c
    ∧ chAt data (pos + 2) = some c

/-- IS_CRLF of cctoml.cc. -/
def isCrlfAt (data : Chars) (pos : Nat) : Bool :=
  chAt data pos = some '\n'
    ∨ (chAt data pos = some '\r' ∧ chAt data (pos + 1) = some '\n')

/-- The whitespace-swallowing loop of the line-ending backslash. -/
def swallowWsAux : Nat → Chars → Nat → Nat
  | 0, _, pos => pos
  | fuel+1, data, pos =>
      if pos < data.length
          ∧ (isCrlfAt data pos ∨ chAt data pos = some ' ' ∨ chAt data pos = some '\t') then
        swallowWsAux fuel data (pos + 1)
      else pos

/-- The lookahead of parseMultiBasicString checking whether a character
other than blanks appears before the end of the line. -/
def lineHasCharAux : Nat → Chars → Nat → Bool
  | 0, _, _ => false
  | fuel+1, data, cp =>
      match chAt data cp with
      | none => false
      | some c =>
          if c = '\n' ∨ c = '\r' then false
          else if c = ' ' ∨ c = '\t' then lineHasCharAux fuel data (cp + 1)
          else true

def parseMultiBasicStringAux : Nat → Chars → Nat → Chars → Bool → Except Err (Chars × Nat)
  | 0, _, pos, _, _ => .error (.pe .fuelExhausted pos)
  | fuel+1, data, pos, acc, inEscape =>
      if pos < data.length then
        if ¬ inEscape ∧ match3 data pos '"'
            ∧ ¬ (pos + 3 < data.length ∧ chAt data (pos + 3) = some '"') then
          .ok (acc, pos + 3)
        else if ¬ inEscape ∧ match3 data pos '"'
            ∧ pos + 3 < data.length ∧ chAt data (pos + 3) = some '"'
            ∧ pos + 5 < data.length ∧ chAt data (pos + 5) = some '"' then
          .error (.pe .threeQuotesInMultiBasic pos)
        else
          match chAt data pos with
          | none => .error (.pe .unterminatedMultiBasic pos)
          | some c =>
            let pos := pos + 1
            if c = '\\' ∧ ¬ inEscape then
              if lineHasCharAux (data.length + 1) data pos then
                parseMultiBasicStringAux fuel data pos acc true
              else if pos < data.length
                  ∧ (isCrlfAt data pos ∨ chAt data pos = some ' '
                      ∨ chAt data pos = some '\t') then
                parseMultiBasicStringAux fuel data
                  (swallowWsAux (data.length + 1) data pos) acc false
              else parseMultiBasicStringAux fuel data pos acc true
            else if (cbyte c ≤ 0x08 ∨ cbyte c = 0x0B ∨ cbyte c = 0x0C
                  ∨ (0x0E ≤ cbyte c ∧ cbyte c ≤ 0x1F) ∨ cbyte c = 0x7F)
                ∨ (c = '\r' ∧ pos < data.length ∧ chAt data pos ≠ some '\n') then
              .error (.pe .controlCharInMultiBasic pos)
            else if inEscape then
              if c = 'b' then parseMultiBasicStringAux fuel data pos (acc ++ ['\x08']) false
              else if c = 't' then parseMultiBasicStringAux fuel data pos (acc ++ ['\t']) false
              else if c = 'n' then parseMultiBasicStringAux fuel data pos (acc ++ ['\n']) false
              else if c = 'f' then parseMultiBasicStringAux fuel data pos (acc ++ ['\x0c']) false
              else if c = 'r' then parseMultiBasicStringAux fuel data pos (acc ++ ['\r']) false
              else if c = '"' then parseMultiBasicStringAux fuel data pos (acc ++ ['"']) false
              else if c = '\\' then parseMultiBasicStringAux fuel data pos (acc ++ ['\\']) false
              else if c = 'u' ∨ c = 'U' then
                match parseUnicodeString data (pos - 1) with
                | .error e => .error e
                | .ok (s, pos) => parseMultiBasicStringAux fuel data pos (acc ++ s) false
              else .error (.pe .unknownEscapeInMultiLine pos)
            else parseMultiBasicStringAux fuel data pos (acc ++ [c]) inEscape
      else .error (.pe .unterminatedMultiBasic pos)

/-- parseMultiBasicString of cctoml.cc. -/
def parseMultiBasicString (data : Chars) (pos : Nat) : Except Err (Chars × Nat) :=
  parseMultiBasicStringAux (data.length + 1) data (skipCrlf data (pos + 3)) [] false

def parseMultiLiteralStringAux : Nat → Chars → Nat → Chars → Except Err (Chars × Nat)
  | 0, _, pos, _ => .error (.pe .fuelExhausted pos)
  | fuel+1, data, pos, acc =>
      if pos < data.length then
        if match3 data pos '\''
            ∧ ¬ (pos + 3 < data.length ∧ chAt data (pos + 3) = some '\'') then
          .ok (acc, pos + 3)
        else if match3 data pos '\''
            ∧ pos + 3 < data.length ∧ chAt data (pos + 3) = some '\''
            ∧ pos + 5 < data.length ∧ chAt data (pos + 5) = some '\'' then
          .error (.pe .threeQuotesInMultiLiteral pos)
        else
          match chAt data pos with
          | none => .error (.pe .unterminatedMultiLiteral pos)
          | some c =>
            if (cbyte c ≤ 0x1F ∧ c ≠ '\t' ∧ c ≠ '\r' ∧ c ≠ '\n') ∨ cbyte c = 0x7F
                ∨ (c = '\r' ∧ pos + 1 < data.length ∧ chAt data (pos + 1) ≠ some '\n') then
              .error (.pe .controlCharInMultiLiteral pos)
            else parseMultiLiteralStringAux fuel data (pos + 1) (acc ++ [c])
      else .error (.pe .unterminatedMultiLiteral pos)

/-- parseMultiLiteralString of cctoml.cc. -/
def parseMultiLiteralString (data : Chars) (pos : Nat) : Except Err (Chars × Nat) :=
  parseMultiLiteralStringAux (data.length + 1) data (skipCrlf data (pos + 3)) []

/-- parseString of cctoml.cc: dispatch on the quote flavour. -/
def parseStringV (data : Chars) (pos : Nat) : Except Err (TomlValue × Nat) :=
  match chAt data pos with
  | some c =>
      if match3 data pos c then
        if c = '"' then
          match parseMultiBasicString data pos with
          | .error e => .error e
          | .ok (s, pos) => .ok (.str s, pos)
        else if c = '\'' then
          match parseMultiLiteralString data pos with
          | .error e => .error e
          | .ok (s, pos) => .ok (.str s, pos)
        else .error (.pe .notAStringValue pos)
      else
        if c = '"' then
          match parseBasicString data pos with
          | .error e => .error e
          | .ok (s, pos) => .ok (.str s, pos)
        else if c = '\'' then
          match parseLiteralString data pos with
          | .error e => .error e
          | .ok (s, pos) => .ok (.str s, pos)
        else .error (.pe .notAStringValue pos)
  | none => .error (.pe .notAStringValue pos)

/-- parseQuotedKeys of cctoml.cc. -/
def parseQuotedKeys (data : Chars) (pos : Nat) : Except Err (Chars × Nat) :=
  if chAt data pos = some '"' then parseBasicString data pos
  else parseLiteralString data pos

end cctoml

namespace cctoml

/-!  parseNumber of cctoml.cc and its from_chars conversions. -/

/-- The isValidDigit lambda of parseNumber. -/
def isValidDigitB (base : Nat) (c : Char) : Bool :=
  if base = 2 then c = '0' || c = '1'
  else if base = 8 then 48 ≤ cbyte c && cbyte c ≤ 55
  else if base = 10 then isDigitCh c
  else if base = 16 then isXDigitCh c
  else false

/-- The digit-or-underscore scanning loops of parseNumber: advance while the
character is a valid digit or an underscore followed by a valid digit;
report whether at least one digit was consumed.  An underscore not followed
by a digit throws, with the position of the start of the number. -/
def scanDUAux (valid : Char → Bool) (data : Chars) (start : Nat) :
    Nat → Nat → Bool → Except Err (Nat × Bool)
  | 0, scan, _ => .error (.pe .fuelExhausted scan)
  | fuel+1, scan, saw =>
      match chAt data scan with
      | some c =>
          if valid c then scanDUAux valid data start fuel (scan + 1) true
          else if c = '_' then
            match chAt data (scan + 1) with
            | some c2 =>
                if valid c2 then scanDUAux valid data start fuel (scan + 1) saw
                else .error (.pe .underscoreMustBeFollowedByDigit start)
            | none => .error (.pe .underscoreMustBeFollowedByDigit start)
          else .ok (scan, saw)
      | none => .ok (scan, saw)

def scanDU (valid : Char → Bool) (data : Chars) (start scan : Nat) :
    Except Err (Nat × Bool) :=
  scanDUAux valid data start (data.length + 1) scan false

/-- The exponent part of std::from_chars for double: consumed only when the
marker is followed by at least one digit. -/
def fcExpPart (r : Chars) : Int × Chars :=
  match r with
  | 'e' :: t | 'E' :: t =>
      let st : Int × Chars :=
        match t with
        | '+' :: u => (1, u)
        | '-' :: u => (-1, u)
        | _ => (1, t)
      let eds := st.2.takeWhile isDigitCh
      if eds.isEmpty then (0, 'e' :: t)
      else (st.1 * (digitsVal eds : Int), st.2.drop eds.length)
  | _ => (0, r)

/-- std::from_chars for double on the underscore-free token, reading the
decimal exactly (`none` models a failed or incomplete conversion). -/
def fcDouble (raw : Chars) : Option Q :=
  let st : Int × Chars :=
    match raw with
    | '-' :: t => (-1, t)
    | _ => (1, raw)
  let ds1 := st.2.takeWhile isDigitCh
  let r1 := st.2.drop ds1.length
  let frac : Chars × Chars :=
    match r1 with
    | '.' :: t => (t.takeWhile isDigitCh, t.drop (t.takeWhile isDigitCh).length)
    | _ => ([], r1)
  if ds1.isEmpty ∧ frac.1.isEmpty then none
  else
    let ep := fcExpPart frac.2
    if ep.2.isEmpty then
      let v : Int := st.1 * (digitsVal (ds1 ++ frac.1) : Nat)
      some (qMulPow10 ⟨v, 1⟩ (ep.1 - frac.1.length))
    else none

/-- std::from_chars for int64_t with the given base on the underscore-free
token (`none` models failure, incomplete consumption or overflow). -/
def fcInt (raw : Chars) (base : Nat) : Option Int :=
  let st : Int × Chars :=
    match raw with
    | '-' :: t => (-1, t)
    | _ => (1, raw)
  let ds := st.2.takeWhile (isValidDigitB base)
  if ds.isEmpty ∨ ¬ (st.2.drop ds.length).isEmpty then none
  else
    let v : Int := st.1 * (ds.foldl (fun a c => a * base + hexVal c) 0 : Nat)
    if v < -((2 : Int) ^ 63) ∨ v > (2 : Int) ^ 63 - 1 then none else some v

/-- parseNumber of cctoml.cc. -/
def parseNumber (data : Chars) (pos : Nat) : Except Err (TomlValue × Nat) :=
  let start := pos
  let size := data.length
  let hasSign := chAt data pos = some '+' ∨ chAt data pos = some '-'
  let isNegative := chAt data pos = some '-'
  let pos := if hasSign then pos + 1 else pos
  if hasSign ∧ pos < size ∧ chAt data pos = some '.' then
    .error (.pe .signFollowedByDot pos)
  else if pos + 2 < size ∧ subArr data pos 3 = ("inf").toList then
    .ok (.double (if isNegative then .neginf else .inf), pos + 3)
  else if pos + 2 < size ∧ subArr data pos 3 = ("nan").toList then
    .ok (.double .nan, pos + 3)
  else
    let bp : Nat × Nat :=
      if pos + 1 < size ∧ chAt data pos = some '0' then
        if chAt data (pos + 1) = some 'b' then (2, pos + 2)
        else if chAt data (pos + 1) = some 'o' then (8, pos + 2)
        else if chAt data (pos + 1) = some 'x' then (16, pos + 2)
        else (10, pos)
      else (10, pos)
    let base := bp.1
    let pos := bp.2
    if base ≠ 10 ∧ (chAt data start = some '+' ∨ chAt data start = some '-') then
      .error (.pe .signOnlyInDecimal start)
    else if base = 10 ∧ chAt data pos = some '0' ∧ pos + 1 < size
        ∧ (match chAt data (pos + 1) with
           | some c1 => isDigitCh c1 || c1 = '_'
           | none => false) = true then
      .error (.pe .leadingZerosNotAllowed pos)
    else
      match scanDU (isValidDigitB base) data start pos with
      | .error e => .error e
      | .ok (scan0, _) =>
        let fracStep : Except Err (Nat × Bool) :=
          if base = 10 ∧ chAt data scan0 = some '.' then
            let scan := scan0 + 1
            if chAt data scan = some '_' then .error (.pe .dotFollowedByUnderscore pos)
            else
              match scanDU isDigitCh data start scan with
              | .error e => .error e
              | .ok (scan2, hasFraction) =>
                  if ¬ hasFraction then .error (.pe .expectedDigitsAfterDot scan2)
                  else .ok (scan2, true)
          else .ok (scan0, false)
        match fracStep with
        | .error e => .error e
        | .ok (scan1, isFloat1) =>
          let expStep : Except Err (Nat × Bool) :=
            if base = 10 ∧ (chAt data scan1 = some 'e' ∨ chAt data scan1 = some 'E') then
              let scan := scan1 + 1
              let scan :=
                if chAt data scan = some '+' ∨ chAt data scan = some '-' then scan + 1
                else scan
              if chAt data scan = some '_' then
                .error (.pe .expectedDigitsAfterExponentUnderscore scan)
              else
                match scanDU isDigitCh data start scan with
                | .error e => .error e
                | .ok (scan2, hasExpDigit) =>
                    if ¬ hasExpDigit then .error (.pe .expectedDigitsAfterExponent scan2)
                    else .ok (scan2, true)
            else .ok (scan1, false)
          match expStep with
          | .error e => .error e
          | .ok (scan, isFloat2) =>
            let isFloat := isFloat1 ∨ isFloat2
            let raw := subArr data pos (scan - pos)
            let raw := if isNegative then '-' :: raw else raw
            -- raw.front()/raw.back() on an empty token is UB in the source;
            -- a placeholder that is not an underscore stands in for it
            if raw.headD 'x' = '_' ∨ raw.getLastD 'x' = '_' then
              .error (.pe .underscoreAtStartOrEnd start)
            else
              let raw := raw.filter (fun c => c != '_')
              if isFloat then
                match fcDouble raw with
                | none => .error (.pe .invalidFloat start)
                | some q => .ok (.double (.finite q), scan)
              else
                match fcInt raw base with
                | none => .error (.pe .invalidInteger start)
                | some v => .ok (.integer v, scan)

/-!  Date-vs-number discrimination of cctoml.cc. -/

/-- Whether data[i] exists and is a decimal digit. -/
def digAt (data : Chars) (i : Nat) : Bool :=
  match chAt data i with
  | some c => isDigitCh c
  | none => false

/-- data[i] where the source has already checked the bound. -/
def cAtD (data : Chars) (i : Nat) : Char := (chAt data i).getD '\x00'

/-- looksLikeDateTime of cctoml.cc. -/
def looksLikeDateTime (sv : Chars) (pos : Nat) : Bool :=
  (pos + 5 ≤ sv.length ∧ digAt sv pos ∧ digAt sv (pos + 1) ∧ digAt sv (pos + 2)
      ∧ digAt sv (pos + 3) ∧ chAt sv (pos + 4) = some '-')
  ∨ (pos + 3 ≤ sv.length ∧ digAt sv pos ∧ digAt sv (pos + 1)
      ∧ chAt sv (pos + 2) = some ':')

/-- The optional fractional-seconds tail of matchFullDateTime: returns the
position after the digits, or `none` when a dot has no digits. -/
def mfdtFrac (data : Chars) (pos : Nat) : Option Nat :=
  if pos < data.length ∧ chAt data pos = some '.' then
    let p2 := TomlDate.scanDigits data (pos + 1)
    if p2 = pos + 1 then none else some p2
  else some pos

/-- The time part (hh:mm:ss onwards) of branch 1 of matchFullDateTime. -/
def mfdtTimeTail (data : Chars) (pos : Nat) : Bool :=
  let size := data.length
  if pos + 8 > size then false
  else
    let hour := (cbyte (cAtD data pos) - 48) * 10 + (cbyte (cAtD data (pos + 1)) - 48)
    let minute := (cbyte (cAtD data (pos + 3)) - 48) * 10 + (cbyte (cAtD data (pos + 4)) - 48)
    let second := (cbyte (cAtD data (pos + 6)) - 48) * 10 + (cbyte (cAtD data (pos + 7)) - 48)
    if ¬ (digAt data pos ∧ digAt data (pos + 1) ∧ chAt data (pos + 2) = some ':'
        ∧ digAt data (pos + 3) ∧ digAt data (pos + 4) ∧ chAt data (pos + 5) = some ':'
        ∧ digAt data (pos + 6) ∧ digAt data (pos + 7)
        ∧ hour ≤ 23 ∧ minute ≤ 59 ∧ second ≤ 59) then false
    else
      match mfdtFrac data (pos + 8) with
      | none => false
      | some pos =>
        let tz : Option Nat :=
          if pos < size then
            let c := cAtD data pos
            if c = 'Z' ∨ c = 'z' then some (pos + 1)
            else if c = '+' ∨ c = '-' then
              let pos := pos + 1
              if pos + 5 > size then none
              else
                let offHour :=
                  (cbyte (cAtD data pos) - 48) * 10 + (cbyte (cAtD data (pos + 1)) - 48)
                let offMin :=
                  (cbyte (cAtD data (pos + 3)) - 48) * 10 + (cbyte (cAtD data (pos + 4)) - 48)
                if digAt data pos ∧ digAt data (pos + 1) ∧ chAt data (pos + 2) = some ':'
                    ∧ digAt data (pos + 3) ∧ digAt data (pos + 4)
                    ∧ offHour ≤ 23 ∧ offMin ≤ 59 then some (pos + 5)
                else none
            else some pos
          else some pos
        match tz with
        | none => false
        | some pos => pos = size

/-- matchFullDateTime of cctoml.cc. -/
def matchFullDateTime (data : Chars) : Bool :=
  if data.isEmpty then false
  else
    let size := data.length
    let dateShape : Bool :=
      10 ≤ size ∧ digAt data 0 ∧ digAt data 1 ∧ digAt data 2 ∧ digAt data 3
        ∧ chAt data 4 = some '-' ∧ digAt data 5 ∧ digAt data 6 ∧ chAt data 7 = some '-'
        ∧ digAt data 8 ∧ digAt data 9
    let branch1 : Option Bool :=
      if dateShape then
        let month := (cbyte (cAtD data 5) - 48) * 10 + (cbyte (cAtD data 6) - 48)
        let day := (cbyte (cAtD data 8) - 48) * 10 + (cbyte (cAtD data 9) - 48)
        if 1 ≤ month ∧ month ≤ 12 ∧ 1 ≤ day ∧ day ≤ 31 then
          if size = 10 then some true
          else if cAtD data 10 ≠ 'T' ∧ cAtD data 10 ≠ 't' ∧ cAtD data 10 ≠ ' ' then
            some false
          else some (mfdtTimeTail data 11)
        else none
      else none
    match branch1 with
    | some b => b
    | none =>
      if 8 ≤ size ∧ chAt data 2 = some ':' ∧ chAt data 5 = some ':'
          ∧ digAt data 0 ∧ digAt data 1 ∧ digAt data 3 ∧ digAt data 4
          ∧ digAt data 6 ∧ digAt data 7 then
        let hour := (cbyte (cAtD data 0) - 48) * 10 + (cbyte (cAtD data 1) - 48)
        let minute := (cbyte (cAtD data 3) - 48) * 10 + (cbyte (cAtD data 4) - 48)
        let second := (cbyte (cAtD data 6) - 48) * 10 + (cbyte (cAtD data 7) - 48)
        if hour ≤ 23 ∧ minute ≤ 59 ∧ second ≤ 59 then
          match mfdtFrac data 8 with
          | none => false
          | some pos => pos = size
        else false
      else false

/-- The isValidChar lambda of parseNumberOrDate. -/
def nodValidChar (c : Char) : Bool :=
  isAlnumCh c || c = '-' || c = ':' || c = 'T' || c = 'Z' || c = '+' || c = '.'

def nodScanEndAux : Nat → Chars → Nat → Nat
  | 0, _, endP => endP
  | fuel+1, data, endP =>
      if endP < data.length
          ∧ (nodValidChar (cAtD data endP)
              ∨ (chAt data endP = some ' ' ∧ endP + 1 < data.length
                  ∧ nodValidChar (cAtD data (endP + 1)))) then
        nodScanEndAux fuel data (endP + 1)
      else endP

/-- parseNumberOrDate of cctoml.cc. -/
def parseNumberOrDate (data : Chars) (pos : Nat) : Except Err (TomlValue × Nat) :=
  let original := pos
  if looksLikeDateTime data pos then
    let endP := nodScanEndAux (data.length + 1) data pos
    let maybeDate := subArr data pos (endP - pos)
    if matchFullDateTime maybeDate then
      match TomlDate.parse maybeDate with
      | .ok d => .ok (.date d, endP)
      | .error (.te m) => .error (.pe (.dateTimeError m) endP)
      | .error (.pe m _) => .error (.pe (.dateTimeError m) endP)
    else parseNumber data original
  else parseNumber data original

end cctoml

namespace cctoml

/-!  Structural parser of cctoml.cc. -/

/-- The dotted-key loop shared by parseKeyValue and parseTableHeader. -/
def parseKeysLoopAux (isTable : Bool) :
    Nat → Chars → Nat → List Chars → Except Err (List Chars × Nat)
  | 0, _, pos, _ => .error (.pe .fuelExhausted pos)
  | fuel+1, data, pos, keys =>
      if pos < data.length then
        let pos := skipWhitespace data pos
        let step : Except Err (Chars × Nat) :=
          if pos < data.length ∧ (chAt data pos = some '"' ∨ chAt data pos = some '\'') then
            parseQuotedKeys data pos
          else parseBareKey data pos isTable
        match step with
        | .error e => .error e
        | .ok (k, pos) =>
          let pos := skipWhitespace data pos
          if pos < data.length ∧ chAt data pos = some '.' then
            parseKeysLoopAux isTable fuel data (pos + 1) (keys ++ [k])
          else .ok (keys ++ [k], pos)
      else .ok (keys, pos)

/-- parseTableHeader of cctoml.cc. -/
def parseTableHeader (data : Chars) (pos : Nat) (isArray : Bool) :
    Except Err (List Chars × Nat) :=
  let pos := pos + 1
  let pos := if isArray then pos + 1 else pos
  match parseKeysLoopAux true (data.length + 1) data pos [] with
  | .error e => .error e
  | .ok (headers, pos) =>
      let pos := pos + 1
      let pos := if isArray then pos + 1 else pos
      .ok (headers, pos)

/-- The nested-key insertion of parseObject: descend through all keys but
the last (each step must find an object), then insert at the last key. -/
def objectDeepInsert : TomlValue → List Chars → TomlValue → Nat → Except Err TomlValue
  | _, [], _, pos => .error (.pe .emptyKeyPath pos)
  | v, [k], val, pos =>
      if v.isObjectB then .ok (v.insert k val)
      else .error (.pe .cannotInsertTargetNotObject pos)
  | v, k :: k2 :: rest, val, pos =>
      match v with
      | .object m =>
          let child := (TomlValue.objFind m k).getD TomlValue.defaultV
          match objectDeepInsert child (k2 :: rest) val pos with
          | .error e => .error e
          | .ok c2 => .ok (.object (TomlValue.objSet m k c2))
      | _ => .error (.pe .cannotCreateNestedKey pos)

/-!  The mutually recursive part of the structural parser
(parseValue / parseArray / parseObject / parseKeyValue /
parseKeyValuePairs) is written as one fuel-structural function over a
request type, so that the kernel can evaluate it; each branch is the
direct translation of its source function, and named wrappers below
restore the source signatures. -/

/-- The result of one structural-parser production. -/
inductive ParseRes where
  | rv (v : TomlValue) (pos : Nat)
  | rkv (ks : List Chars) (v : TomlValue) (pos : Nat)
  | rkvs (l : List (List Chars × TomlValue)) (pos : Nat)

/-- The pending structural-parser production. -/
inductive ParseReq where
  | value (pos : Nat)
  | array (pos : Nat)
  | arrayLoop (pos : Nat) (arr : List TomlValue) (state : Nat)
  | object (pos : Nat)
  | objectLoop (pos : Nat) (obj : TomlValue) (state : Nat)
  | keyValue (pos : Nat) (needCrlf : Bool)
  | kvPairsLoop (pos : Nat) (acc : List (List Chars × TomlValue))

def ParseReq.posOf : ParseReq → Nat
  | .value pos => pos
  | .array pos => pos
  | .arrayLoop pos _ _ => pos
  | .object pos => pos
  | .objectLoop pos _ _ => pos
  | .keyValue pos _ => pos
  | .kvPairsLoop pos _ => pos

def parseStep : Nat → Chars → ParseReq → Except Err ParseRes
  | 0, _, req => .error (.pe .fuelExhausted req.posOf)
  -- parseValue of cctoml.cc: dispatch on the first significant character
  | fuel+1, data, .value pos =>
      let pos := skipWhitespace data pos
      (match chAt data pos with
      | none => .error (.pe .invalidValue pos)
      | some c =>
          if c = '"' ∨ c = '\'' then
            match parseStringV data pos with
            | .error e => .error e
            | .ok (v, pos) => .ok (.rv v pos)
          else if c = '+' ∨ c = '-' ∨ isDigitCh c ∨ c = 'i' ∨ c = 'n' then
            match parseNumberOrDate data pos with
            | .error e => .error e
            | .ok (v, pos) => .ok (.rv v pos)
          else if c = 't' ∨ c = 'f' then
            match parseBoolean data pos with
            | .error e => .error e
            | .ok (v, pos) => .ok (.rv v pos)
          else if c = '[' then parseStep fuel data (.array pos)
          else if c = '\x7b' then parseStep fuel data (.object pos)
          else .error (.pe .invalidValue pos))
  -- parseArray of cctoml.cc
  | fuel+1, data, .array pos =>
      (match skipAll data (pos + 1) with
      | .error e => .error e
      | .ok pos => parseStep fuel data (.arrayLoop pos [] 0))
  -- the element loop of parseArray (state: 0 init, 1 has value, 2 no value)
  | fuel+1, data, .arrayLoop pos arr state =>
      if pos < data.length then
        match skipAll data pos with
        | .error e => .error e
        | .ok pos =>
          if chAt data pos = some ']' then .ok (.rv (.array arr) (pos + 1))
          else
            match (if state ≠ 2 then parseStep fuel data (.value pos)
                   else .error (.pe .unexpectedValueAfterEmptyArrayElement pos)) with
            | .error e => .error e
            | .ok (.rv v pos) =>
              (match skipAll data pos with
              | .error e => .error e
              | .ok pos =>
                if pos < data.length ∧ chAt data pos = some ',' then
                  parseStep fuel data (.arrayLoop (pos + 1) (arr ++ [v]) 1)
                else parseStep fuel data (.arrayLoop pos (arr ++ [v]) 2))
            | .ok _ => .error (.pe .fuelExhausted pos)
      else .error (.pe .unclosedArray pos)
  -- parseObject (inline tables) of cctoml.cc
  | fuel+1, data, .object pos =>
      parseStep fuel data (.objectLoop (pos + 1) TomlValue.defaultV 0)
  -- the key/value loop of parseObject (state: 0 init, 1 has value, 2 no value)
  | fuel+1, data, .objectLoop pos obj state =>
      if pos < data.length then
        match skipWhitespaceAndComment data pos with
        | .error e => .error e
        | .ok pos =>
          if chAt data pos = some '\x7d' then
            if state ≠ 1 then .ok (.rv obj (pos + 1))
            else .error (.pe .unclosedObject pos)
          else if state ≠ 2 then
            match parseStep fuel data (.keyValue pos false) with
            | .error e => .error e
            | .ok (.rkv ks v pos) =>
              (match objectDeepInsert obj ks v pos with
              | .error e => .error e
              | .ok obj =>
                match skipWhitespaceAndComment data pos with
                | .error e => .error e
                | .ok pos =>
                  if pos < data.length ∧ chAt data pos = some ',' then
                    parseStep fuel data (.objectLoop (pos + 1) obj 1)
                  else parseStep fuel data (.objectLoop pos obj 2))
            | .ok _ => .error (.pe .fuelExhausted pos)
          else .error (.pe .unexpectedValueAfterEmptyArrayElement pos)
      else .error (.pe .unclosedObject pos)
  -- parseKeyValue of cctoml.cc
  | fuel+1, data, .keyValue pos needCrlf =>
      (match parseKeysLoopAux false (data.length + 1) data pos [] with
      | .error e => .error e
      | .ok (keys, pos) =>
        let pos := skipWhitespace data pos
        if ¬ (pos < data.length ∧ chAt data pos = some '=') then
          .error (.pe .expectEqAfterKey pos)
        else
          match parseStep fuel data (.value (pos + 1)) with
          | .error e => .error e
          | .ok (.rv value pos) =>
            (match skipWhitespaceAndComment data pos with
            | .error e => .error e
            | .ok pos =>
              if needCrlf ∧ pos < data.length
                  ∧ (chAt data pos = some '\r' ∨ chAt data pos = some '\n'
                      ∨ chAt data pos = some '\x7d' ∨ chAt data pos = some ']'
                      ∨ chAt data pos = some ',') then
                .ok (.rkv keys value (skipCrlf data pos))
              else if needCrlf ∧ pos < data.length then
                .error (.pe .lineBreakRequired pos)
              else .ok (.rkv keys value pos))
          | .ok _ => .error (.pe .fuelExhausted pos))
  -- the loop of parseKeyValuePairs of cctoml.cc
  | fuel+1, data, .kvPairsLoop pos acc =>
      if pos < data.length then
        match skipUselessChar data pos with
        | .error e => .error e
        | .ok pos =>
          if pos ≥ data.length ∨ chAt data pos = some '[' then .ok (.rkvs acc pos)
          else
            match parseStep fuel data (.keyValue pos true) with
            | .error e => .error e
            | .ok (.rkv ks v pos) => parseStep fuel data (.kvPairsLoop pos (acc ++ [(ks, v)]))
            | .ok _ => .error (.pe .fuelExhausted pos)
      else .ok (.rkvs acc pos)

/-- parseValue of cctoml.cc. -/
def parseValue (fuel : Nat) (data : Chars) (pos : Nat) : Except Err (TomlValue × Nat) :=
  match parseStep fuel data (.value pos) with
  | .ok (.rv v p) => .ok (v, p)
  | .ok _ => .error (.pe .fuelExhausted pos)
  | .error e => .error e

/-- parseArray of cctoml.cc. -/
def parseArray (fuel : Nat) (data : Chars) (pos : Nat) : Except Err (TomlValue × Nat) :=
  match parseStep fuel data (.array pos) with
  | .ok (.rv v p) => .ok (v, p)
  | .ok _ => .error (.pe .fuelExhausted pos)
  | .error e => .error e

/-- parseObject of cctoml.cc. -/
def parseObject (fuel : Nat) (data : Chars) (pos : Nat) : Except Err (TomlValue × Nat) :=
  match parseStep fuel data (.object pos) with
  | .ok (.rv v p) => .ok (v, p)
  | .ok _ => .error (.pe .fuelExhausted pos)
  | .error e => .error e

/-- parseKeyValue of cctoml.cc. -/
def parseKeyValue (fuel : Nat) (data : Chars) (pos : Nat) (needCrlf : Bool) :
    Except Err (List Chars × TomlValue × Nat) :=
  match parseStep fuel data (.keyValue pos needCrlf) with
  | .ok (.rkv ks v p) => .ok (ks, v, p)
  | .ok _ => .error (.pe .fuelExhausted pos)
  | .error e => .error e

/-- parseKeyValuePairs of cctoml.cc. -/
def parseKeyValuePairs (fuel : Nat) (data : Chars) (pos : Nat) :
    Except Err (List (List Chars × TomlValue) × Nat) :=
  match parseStep fuel data (.kvPairsLoop pos []) with
  | .ok (.rkvs l p) => .ok (l, p)
  | .ok _ => .error (.pe .fuelExhausted pos)
  | .error e => .error e

/-- The fuel given to the mutual parsing functions: each recursive entry
consumes input, so this bound is never reached on real runs. -/
def parseFuel (data : Chars) : Nat := 4 * data.length + 16

/-!  parser::parse of cctoml.cc: assembling the document tree. -/

/-- The top-level assignment loop of parser::parse (before any header):
descend through all keys but the last, requiring objects, then insert at
the last key unless it already exists. -/
def topAssignPath : TomlValue → List Chars → TomlValue → Nat → Except Err TomlValue
  | _, [], _, pos => .error (.pe .emptyKeyPath pos)
  | v, [k], val, pos =>
      match v with
      | .object m =>
          match TomlValue.objFind m k with
          | none => .ok (.object (TomlValue.objSet m k val))
          | some _ => .error (.pe .keyHasExisted pos)
      | _ => .error (.pe .nodeIsNotAObject pos)
  | v, k :: k2 :: rest, val, pos =>
      match v with
      | .object m =>
          let child := (TomlValue.objFind m k).getD TomlValue.defaultV
          match topAssignPath child (k2 :: rest) val pos with
          | .error e => .error e
          | .ok c2 => .ok (.object (TomlValue.objSet m k c2))
      | _ => .error (.pe .nodeIsNotAObject pos)

def topAssign : TomlValue → List (List Chars × TomlValue) → Nat → Except Err TomlValue
  | root, [], _ => .ok root
  | root, (ks, v) :: rest, pos =>
      match topAssignPath root ks v pos with
      | .error e => .error e
      | .ok root => topAssign root rest pos

/-- One path of the SET_VALUE_TO_NODE macro of parser::parse. -/
def setValuePath : TomlValue → List Chars → TomlValue → Nat → Except Err TomlValue
  | _, [], _, pos => .error (.pe .emptyKeyPath pos)
  | v, [k], val, pos =>
      match v with
      | .object m =>
          match TomlValue.objFind m k with
          | none => .ok (.object (TomlValue.objSet m k val))
          | some _ => .error (.pe .duplicateKey pos)
      | _ => .error (.pe .cannotInsertKeyOnNonObject pos)
  | v, k :: k2 :: rest, val, pos =>
      match v with
      | .object m =>
          let child := (TomlValue.objFind m k).getD TomlValue.defaultV
          match setValuePath child (k2 :: rest) val pos with
          | .error e => .error e
          | .ok c2 => .ok (.object (TomlValue.objSet m k c2))
      | _ => .error (.pe .expectedObjectInPath pos)

/-- The SET_VALUE_TO_NODE macro of parser::parse. -/
def setValueToNode : TomlValue → List (List Chars × TomlValue) → Nat → Except Err TomlValue
  | node, [], _ => .ok node
  | node, (ks, v) :: rest, pos =>
      match setValuePath node ks v pos with
      | .error e => .error e
      | .ok node => setValueToNode node rest pos

/-- Index of the last object element of an array (the rbegin/rend find_if
of GET_TARGET_NODE). -/
def findLastObjIdx (xs : List TomlValue) : Option Nat :=
  match xs.reverse.findIdx? TomlValue.isObjectB with
  | some i => some (xs.length - 1 - i)
  | none => none

/-- The GET_TARGET_NODE macro of parser::parse, written with an explicit
continuation for the pointer into the tree: descend through `key` of `v`
(auto-creating on objects, appending or completing elements on arrays),
run `cont` on the child and write its result back. -/
def getTargetNode (v : TomlValue) (key : Chars) (isArray : Bool) (pos : Nat)
    (cont : TomlValue → Except Err TomlValue) : Except Err TomlValue :=
  match v with
  | .object m =>
      let child := (TomlValue.objFind m key).getD TomlValue.defaultV
      match cont child with
      | .error e => .error e
      | .ok c2 => .ok (.object (TomlValue.objSet m key c2))
  | .array xs =>
      let xs1 : List TomlValue :=
        if xs.isEmpty then xs ++ [.object (TomlValue.objSet [] key TomlValue.defaultV)]
        else
          match findLastObjIdx xs with
          | some i =>
              match xs.get? i with
              | some (.object m0) =>
                  if (TomlValue.objFind m0 key).isNone then
                    xs.set i (.object (TomlValue.objSet m0 key
                      (if isArray then .array [] else TomlValue.defaultV)))
                  else xs
              | _ => xs
          | none => xs ++ [.object (TomlValue.objSet [] key TomlValue.defaultV)]
      match xs1.getLast? with
      | some (.object mb) =>
          let child := (TomlValue.objFind mb key).getD TomlValue.defaultV
          match cont child with
          | .error e => .error e
          | .ok c2 =>
              .ok (.array (xs1.set (xs1.length - 1) (.object (TomlValue.objSet mb key c2))))
      | some _ => .error (.te .notAObject)
      | none => .error (.te .notAObject)
  | _ => .error (.pe .nodeShouldBeArrayOrObject pos)

/-- The body application after the target node of a header was found:
the node kind must agree with the header kind, an array-of-tables header
appends a fresh element built from the key/value pairs, a table header
assigns them in place. -/
def applyBodyAtNode (node : TomlValue) (isArray : Bool)
    (kvs : List (List Chars × TomlValue)) (pos : Nat) : Except Err TomlValue :=
  if node.isArrayB ≠ isArray then .error (.pe .nodeIsNotAArray pos)
  else
    match node with
    | .array xs =>
        if kvs.isEmpty then .ok (.array (xs ++ [TomlValue.defaultV]))
        else
          match setValueToNode TomlValue.defaultV kvs pos with
          | .error e => .error e
          | .ok parent => .ok (.array (xs ++ [parent]))
    | _ => setValueToNode node kvs pos

/-- The per-header-section tree update of parser::parse: descend through
the header path with GET_TARGET_NODE, with the array-of-tables
pre-insertion before the last segment. -/
def goHeaders : Nat → TomlValue → List Chars → Bool →
    List (List Chars × TomlValue) → Nat → Except Err TomlValue
  | 0, _, _, _, _, pos => .error (.pe .fuelExhausted pos)
  | _+1, _, [], _, _, pos => .error (.pe .emptyKeyPath pos)
  | _+1, v, [last], isArray, kvs, pos =>
      let v :=
        match v with
        | .object m =>
            if isArray ∧ (TomlValue.objFind m last).isNone then
              .object (TomlValue.objSet m last (.array []))
            else TomlValue.object m
        | _ => v
      getTargetNode v last isArray pos (fun node => applyBodyAtNode node isArray kvs pos)
  | fuel+1, v, h :: h2 :: rest, isArray, kvs, pos =>
      getTargetNode v h isArray pos
        (fun child => goHeaders fuel child (h2 :: rest) isArray kvs pos)

/-- The header-section loop of parser::parse. -/
def parseLoopAux : Nat → Chars → Nat → TomlValue → Except Err (TomlValue × Nat)
  | 0, _, pos, _ => .error (.pe .fuelExhausted pos)
  | fuel+1, data, pos, root =>
      if pos < data.length then
        match skipWhitespaceAndComment data pos with
        | .error e => .error e
        | .ok pos =>
          if pos ≥ data.length then .ok (root, pos)
          else if chAt data pos ≠ some '[' then .error (.pe .expectedTableHeader pos)
          else
            let isArray := pos + 1 < data.length ∧ chAt data (pos + 1) = some '['
            match parseTableHeader data pos isArray with
            | .error e => .error e
            | .ok (headers, pos) =>
              match skipWhitespaceAndComment data pos with
              | .error e => .error e
              | .ok pos =>
                if pos < data.length ∧ chAt data pos ≠ some '\r'
                    ∧ chAt data pos ≠ some '\n' then
                  .error (.pe .lineBreakRequired pos)
                else
                  let pos := skipCrlf data pos
                  match parseKeyValuePairs (parseFuel data) data pos with
                  | .error e => .error e
                  | .ok (kvs, pos) =>
                    match goHeaders (headers.length + 1) root headers isArray kvs pos with
                    | .error e => .error e
                    | .ok root => parseLoopAux fuel data pos root
      else .ok (root, pos)

namespace parser

/-- parser::parse of cctoml.cc. -/
def parse (data : Chars) : Except Err TomlValue :=
  let root := TomlValue.defaultV
  let step1 : Except Err (TomlValue × Nat) :=
    if 0 < data.length ∧ chAt data 0 ≠ some '[' then
      match parseKeyValuePairs (parseFuel data) data 0 with
      | .error e => .error e
      | .ok (kvs, pos) =>
          match topAssign root kvs pos with
          | .error e => .error e
          | .ok root => .ok (root, pos)
    else .ok (root, 0)
  match step1 with
  | .error e => .error e
  | .ok (root, pos) =>
    match parseLoopAux (data.length + 1) data pos root with
    | .error e => .error e
    | .ok (root, pos) =>
      match skipWhitespaceAndComment data pos with
      | .error e => .error e
      | .ok pos =>
        if pos ≠ data.length then .error (.pe .unexpectedContentAfterTomlValue pos)
        else .ok root

end parser

end cctoml

namespace cctoml

/-!  Serializer of cctoml.cc (the TO_TOML mode, the one the claims are
about).  Output is a character list; the `fuel` argument bounds the tree
depth of the recursion (any fuel at least the document depth reproduces
the source behaviour). -/

/-- Lowercase hexadecimal digits of a natural number. -/
def hexDigitsAux : Nat → Nat → Chars → Chars
  | 0, _, acc => acc
  | fuel+1, n, acc =>
      if n < 16 then Nat.digitChar n :: acc
      else hexDigitsAux fuel (n / 16) (Nat.digitChar (n % 16) :: acc)

def hexDigits (n : Nat) : Chars := hexDigitsAux (n + 1) n []

/-- The scientific exponent text printed by the standard library:
a mandatory sign and at least two digits. -/
def expChars (e : Int) : Chars :=
  (if e < 0 then ['-'] else ['+']) ++ padLeft (natDigits e.natAbs) 2

/-- The string `std::scientific << std::setprecision(15)` prints for the
exact value q: sign, one leading digit, fifteen fractional digits,
lowercase e and the signed exponent (correctly rounded). -/
def sci15 (q : Q) : Chars :=
  if q.num = 0 then ("0.000000000000000e+00").toList
  else
    let s := qAbs q
    let e0 := floorLog10 s
    let m0 := rne (qMulPow10 s (15 - e0))
    let me : Int × Int := if m0 = 10 ^ 16 then (10 ^ 15, e0 + 1) else (m0, e0)
    let digs := natDigits me.1.toNat
    (if qNegB q then ['-'] else []) ++ digs.take 1 ++ '.' :: digs.drop 1
      ++ 'e' :: expChars me.2

/-- std::string::find_first_of("eE"). -/
def findFirstOfEe : Chars → Option Nat
  | [] => none
  | c :: rest =>
      if c = 'e' ∨ c = 'E' then some 0
      else (findFirstOfEe rest).map (fun i => i + 1)

/-- std::string::find_last_not_of(c), returning the index together with
the character found there. -/
def findLastNotOf : Chars → Char → Option (Nat × Char)
  | [], _ => none
  | c :: rest, bad =>
      match findLastNotOf rest bad with
      | some (i, d) => some (i + 1, d)
      | none => if c ≠ bad then some (0, c) else none

/-- std::stoi on the exponent substring (an optional sign and digits). -/
def stoiChars (l : Chars) : Int :=
  match l with
  | '+' :: t => (digitsVal (t.takeWhile isDigitCh) : Int)
  | '-' :: t => -(digitsVal (t.takeWhile isDigitCh) : Int)
  | _ => (digitsVal (l.takeWhile isDigitCh) : Int)

/-- The scientific-branch post-processing of stringifyDouble: split the
printed string at the exponent marker, erase the mantissa from the last
non-zero character when that character is the decimal dot, and re-emit
the exponent through stoi (no plus sign, no leading zeros). -/
def sciPost (str : Chars) : Chars :=
  match findFirstOfEe str with
  | none => str
  | some ePos =>
      let mantissa := str.take ePos
      let exponent := str.drop (ePos + 1)
      let mantissa :=
        match findLastNotOf mantissa '0' with
        | some (i, d) => if d = '.' then mantissa.take i else mantissa
        | none => mantissa
      let expValue := stoiChars exponent
      mantissa ++ 'e' :: intChars expValue

/-- The string `std::fixed << std::setprecision(1)` prints for the exact
value q. -/
def fixed1 (q : Q) : Chars :=
  let t := rne (qMulPow10 (qAbs q) 1)
  (if qNegB q then ['-'] else []) ++ natDigits (t.toNat / 10) ++ '.' :: natDigits (t.toNat % 10)

/-- The string `std::setprecision(max_digits10)` (that is, %.17g in fixed
placement, as all values reaching this branch have exponent between -4 and
5) prints for the exact value q: 17 significant digits with trailing
fractional zeros and a bare trailing dot removed. -/
def defaultPrec17 (q : Q) : Chars :=
  if q.num = 0 then ['0']
  else
    let s := qAbs q
    let e0 := floorLog10 s
    let m0 := rne (qMulPow10 s (16 - e0))
    let me : Int × Int := if m0 = 10 ^ 17 then (10 ^ 16, e0 + 1) else (m0, e0)
    let digs := natDigits me.1.toNat
    let e := me.2
    let body : Chars :=
      if 0 ≤ e then
        let k := e.toNat + 1
        let ip := digs.take k
        let fp := TomlDate.dropTrailingZeros (digs.drop k)
        ip ++ (if fp.isEmpty then [] else '.' :: fp)
      else
        let zeros := List.replicate ((-e).toNat - 1) '0'
        let fp := TomlDate.dropTrailingZeros (zeros ++ digs)
        '0' :: '.' :: fp
    (if qNegB q then ['-'] else []) ++ body

/-- The isIntegerValue condition of stringifyDouble:
num == std::floor(num) and |num| < 1e14. -/
def isIntegerValueB (q : Q) : Bool :=
  qIsIntB q && qLT (qAbs q) (qOfInt (10 ^ 14))

/-- The useScientific condition of stringifyDouble:
|num| >= 1e6 or 0 < |num| < 1e-4. -/
def useScientificB (q : Q) : Bool :=
  qLE (qOfInt (10 ^ 6)) (qAbs q)
    || (qLT (qOfInt 0) (qAbs q) && qLT (qAbs q) ⟨1, 10 ^ 4⟩)

/-- stringifyDouble of cctoml.cc. -/
def stringifyDouble (f : FloatVal) : Chars :=
  match f with
  | .nan => ("nan").toList
  | .inf => ("inf").toList
  | .neginf => ("-inf").toList
  | .finite num =>
      if useScientificB num then sciPost (sci15 num)
      else if isIntegerValueB num then fixed1 num
      else defaultPrec17 num

/-- The escaping of one character in stringifyString of cctoml.cc. -/
def escChar (c : Char) : Chars :=
  if c = '"' then ['\\', '"']
  else if c = '\\' then ['\\', '\\']
  else if c = '\x08' then ['\\', 'b']
  else if c = '\x0c' then ['\\', 'f']
  else if c = '\n' then ['\\', 'n']
  else if c = '\r' then ['\\', 'r']
  else if c = '\t' then ['\\', 't']
  else if cbyte c ≤ 0x08 ∨ (0x0A ≤ cbyte c ∧ cbyte c ≤ 0x1F) ∨ cbyte c = 0x7F then
    '\\' :: 'u' :: padLeft (hexDigits (cbyte c)) 4
  else [c]

/-- stringifyString of cctoml.cc (basic-string output with escapes). -/
def stringifyStringChars (s : Chars) : Chars :=
  '"' :: (s.map escChar).flatten ++ ['"']

/-- stringIsBareKey of cctoml.cc. -/
def stringIsBareKey (s : Chars) : Bool :=
  match s with
  | [] => false
  | c :: _ =>
      if isDigitCh c then false
      else s.all (fun x => isAlnumCh x || x = '_' || x = '-')

/-- isArrayOfTables of cctoml.cc. -/
def isArrayOfTables (v : TomlValue) : Bool :=
  match v with
  | .array xs => ¬ xs.isEmpty && xs.all TomlValue.isObjectB
  | _ => false

/-- The key as the serializer emits it: bare when possible, quoted
otherwise. -/
def emitKey (k : Chars) : Chars :=
  if stringIsBareKey k then k else stringifyStringChars k

/-- Join with the literal comma-space separator. -/
def joinCommaSp (l : List Chars) : Chars := (l.intersperse ((", ").toList)).flatten

mutual

/-- stringifyValue of cctoml.cc restricted to the TO_TOML mode (the mode
every claim is about). -/
def stringifyValue : Nat → TomlValue → Chars
  | 0, _ => []
  | fuel+1, v =>
      match v with
      | .boolean b => if b then ("true").toList else ("false").toList
      | .integer n => intChars n
      | .double f => stringifyDouble f
      | .str s => stringifyStringChars s
      | .date d => TomlDate.toChars d
      | .array xs => stringifyTomlArray fuel xs
      | .object m => stringifyTomlObjectP fuel m []

/-- stringifyTomlArray of cctoml.cc: inline form, objects inside arrays in
inline-table form. -/
def stringifyTomlArray : Nat → List TomlValue → Chars
  | 0, _ => []
  | fuel+1, xs =>
      '[' :: joinCommaSp (xs.map (fun item =>
        match item with
        | .object m => stringifyInlineObject fuel m
        | _ => stringifyValue fuel item)) ++ [']']

/-- stringifyInlineObject of cctoml.cc. -/
def stringifyInlineObject : Nat → List (Chars × TomlValue) → Chars
  | 0, _ => []
  | fuel+1, m =>
      '{' :: ' ' :: joinCommaSp (m.map (fun kv =>
        emitKey kv.1 ++ (" = ").toList
          ++ (match kv.2 with
              | .object m2 => stringifyInlineObject fuel m2
              | _ => stringifyValue fuel kv.2))) ++ [' ', '}']

/-- stringifyTomlObject of cctoml.cc with the running header path: scalar
and inline fields first, then [section] children and [[section]] arrays of
tables. -/
def stringifyTomlObjectP : Nat → List (Chars × TomlValue) → Chars → Chars
  | 0, _, _ => []
  | fuel+1, m, pfx =>
      let part1 := (m.map (fun kv =>
        if ¬ kv.2.isObjectB ∧ ¬ (isArrayOfTables kv.2 = true) then
          emitKey kv.1 ++ (" = ").toList ++ stringifyValue fuel kv.2 ++ ['\n']
        else [])).flatten
      let part2 := (m.map (fun kv =>
        match kv.2 with
        | .object child =>
            let fullKey := (if pfx.isEmpty then [] else pfx ++ ['.']) ++ emitKey kv.1
            '\n' :: '[' :: fullKey ++ ']' :: '\n' :: stringifyTomlObjectP fuel child fullKey
        | .array xs =>
            if isArrayOfTables (.array xs) then
              let fullKey := (if pfx.isEmpty then [] else pfx ++ ['.']) ++ emitKey kv.1
              (xs.map (fun item =>
                '\n' :: '[' :: '[' :: fullKey ++ ']' :: ']' :: '\n' ::
                  (match item with
                   | .object mi => stringifyTomlObjectP fuel mi fullKey
                   | _ => []))).flatten
            else []
        | _ => [])).flatten
      part1 ++ part2

end

namespace parser

/-- parser::stringify of cctoml.cc in the TO_TOML mode. -/
def stringify (fuel : Nat) (v : TomlValue) : Chars := stringifyValue fuel v

end parser

end cctoml

namespace cctoml

/-- Whether an Except result is a success. -/
def isOkE {α : Type} (e : Except Err α) : Bool :=
  match e with
  | .ok _ => true
  | .error _ => false

/-- The date string `dddd-02-29` built from four year digits. -/
def yearFeb29 (d1 d2 d3 d4 : Nat) : Chars :=
  [Nat.digitChar d1, Nat.digitChar d2, Nat.digitChar d3, Nat.digitChar d4]
    ++ ("-02-29").toList

/-- Written from the amended wording of claim C7: in the scientific range
the output is the sign, then the mantissa of the precision-15 scientific
form with its fractional part kept in full (trailing zeros included)
unless every fractional digit is zero, in which case the fraction and the
decimal dot are dropped entirely; then a lowercase e and the exponent
printed as a plain integer, with no plus sign and no leading zeros. -/
def sciSpec (q : Q) : Chars :=
  let s := qAbs q
  let e0 := floorLog10 s
  let m0 := rne (qMulPow10 s (15 - e0))
  let me : Int × Int := if m0 = 10 ^ 16 then (10 ^ 15, e0 + 1) else (m0, e0)
  let digs := natDigits me.1.toNat
  let frac := digs.drop 1
  (if qNegB q then ['-'] else [])
    ++ (if frac.all (fun c => c == '0') then digs.take 1
        else digs.take 1 ++ '.' :: frac)
    ++ 'e' :: intChars me.2

/-!  The concrete inputs of the claims. -/

def inputC1 : Chars := ("x = 10000000.000000002").toList

def outputC1 : Chars := ("x = 1e7\n").toList

def docC1 : TomlValue :=
  .object [(("x").toList, .double (.finite ⟨10000000000000002, 1000000000⟩))]

def docC1Again : TomlValue :=
  .object [(("x").toList, .double (.finite ⟨10000000, 1⟩))]

def inputC2 : Chars := ("[a.b]\nx = 1\n[a.b]\ny = 2\n").toList

def inputC2dup : Chars := ("[a.b]\nx = 1\n[a.b]\nx = 2\n").toList

def docC2 : TomlValue :=
  .object [(("a").toList, .object [(("b").toList,
    .object [(("x").toList, .integer 1), (("y").toList, .integer 2)])])]

def inputC3a : Chars := ("a = \x7b b.c = 1, b.d = 2 \x7d").toList

def inputC3b : Chars := ("a = \x7b b = \x7bc=1\x7d, b.d = 2 \x7d").toList

def docC3 : TomlValue :=
  .object [(("a").toList, .object [(("b").toList,
    .object [(("c").toList, .integer 1), (("d").toList, .integer 2)])])]

def inputC4 : Chars := ("t = \x7b a = 1, a = 2 \x7d").toList

def docC4 : TomlValue :=
  .object [(("t").toList, .object [(("a").toList, .integer 2)])]

def inputC4top : Chars := ("a = 1\na = 2").toList

def inputC5 : Chars := ("x = -_1").toList

def docC5 : TomlValue := .object [(("x").toList, .integer (-1))]

def inputC5b : Chars := ("f = 1__0").toList

def inputC5c : Chars := ("x = 1._5").toList

def inputC5d : Chars := ("x = 1e_5").toList

def inputC6ok : Chars := ("t = 2000-02-29T10:00:00Z").toList

def inputC6bad : Chars := ("t = 2001-02-29T00:00:00Z").toList

def docC6 : TomlValue :=
  .object [(("t").toList,
    .date ⟨.OFFSET_DATE_TIME,
           2000 * 2 ^ 48 + 2 * 2 ^ 44 + 29 * 2 ^ 39 + 10 * 2 ^ 34, 0⟩)]

end cctoml

namespace cctoml

/-- Accumulator form of digitsVal. -/
theorem dval_shift (l : Chars) : ∀ a : Nat,
    l.foldl (fun x c => x * 10 + (cbyte c - 48)) a
      = a * 10 ^ l.length + l.foldl (fun x c => x * 10 + (cbyte c - 48)) 0 := by
  induction l with
  | nil => intro a; simp
  | cons c t ih =>
      intro a
      simp only [List.foldl_cons, List.length_cons]
      rw [ih (a * 10 + (cbyte c - 48)), ih (0 * 10 + (cbyte c - 48))]
      ring

theorem cbyte_digitChar {d : Nat} (h : d < 10) : cbyte (Nat.digitChar d) = d + 48 := by
  interval_cases d <;> decide

theorem natDigitsAux_append : ∀ fuel n acc,
    natDigitsAux fuel n acc = natDigitsAux fuel n [] ++ acc := by
  intro fuel
  induction fuel with
  | zero => intro n acc; simp [natDigitsAux]
  | succ f ih =>
      intro n acc
      by_cases h : n < 10
      · simp [natDigitsAux, h]
      · simp only [natDigitsAux, if_neg h]
        rw [ih (n / 10) (Nat.digitChar (n % 10) :: acc), ih (n / 10) [Nat.digitChar (n % 10)]]
        simp

theorem digitsVal_natDigitsAux : ∀ fuel n, n < fuel →
    digitsVal (natDigitsAux fuel n []) = n := by
  intro fuel
  induction fuel with
  | zero => intro n h; omega
  | succ f ih =>
      intro n h
      by_cases h10 : n < 10
      · simp [natDigitsAux, h10, digitsVal, cbyte_digitChar h10]
      · simp only [natDigitsAux, if_neg h10]
        rw [natDigitsAux_append]
        have hdiv : n / 10 < f := by
          have : n / 10 < n := Nat.div_lt_self (by omega) (by omega)
          omega
        simp only [digitsVal, List.foldl_append, List.foldl_cons, List.foldl_nil]
        have := ih (n / 10) hdiv
        simp only [digitsVal] at this
        rw [this, cbyte_digitChar (Nat.mod_lt n (by omega))]
        omega

theorem digitsVal_natDigits (n : Nat) : digitsVal (natDigits n) = n :=
  digitsVal_natDigitsAux (n + 1) n (by omega)

theorem natDigitsAux_mem : ∀ fuel n acc c, c ∈ natDigitsAux fuel n acc →
    c ∈ acc ∨ isDigitCh c = true := by
  intro fuel
  induction fuel with
  | zero => intro n acc c hc; simp [natDigitsAux] at hc; exact Or.inl hc
  | succ f ih =>
      intro n acc c hc
      by_cases h10 : n < 10
      · simp only [natDigitsAux, if_pos h10, List.mem_cons] at hc
        rcases hc with h | h
        · right
          subst h
          have := cbyte_digitChar h10
          simp [isDigitCh, this]
          omega
        · exact Or.inl h
      · simp only [natDigitsAux, if_neg h10] at hc
        rcases ih (n / 10) _ c hc with h | h
        · simp only [List.mem_cons] at h
          rcases h with h | h
          · right
            subst h
            have hm : n % 10 < 10 := Nat.mod_lt n (by omega)
            have := cbyte_digitChar hm
            simp [isDigitCh, this]
            omega
          · exact Or.inl h
        · exact Or.inr h

theorem natDigits_mem {n : Nat} {c : Char} (hc : c ∈ natDigits n) : isDigitCh c = true := by
  rcases natDigitsAux_mem (n + 1) n [] c hc with h | h
  · simp at h
  · exact h

theorem isDigitCh_ne {c e : Char} (h : isDigitCh c = true) (he : isDigitCh e = false) :
    c ≠ e := by
  intro hce
  subst hce
  rw [h] at he
  simp at he

end cctoml

namespace cctoml

theorem ffe_append {pre rest : Chars}
    (h : ∀ c ∈ pre, c ≠ 'e' ∧ c ≠ 'E') :
    findFirstOfEe (pre ++ 'e' :: rest) = some pre.length := by
  induction pre with
  | nil => simp [findFirstOfEe]
  | cons c t ih =>
      have hc := h c (by simp)
      simp only [List.cons_append, findFirstOfEe, List.length_cons, List.append_eq]
      rw [if_neg (by tauto)]
      rw [ih (fun x hx => h x (by simp [hx]))]
      rfl

theorem fln_none_of_all {l : Chars} {bad : Char} (h : ∀ c ∈ l, c = bad) :
    findLastNotOf l bad = none := by
  induction l with
  | nil => rfl
  | cons c t ih =>
      simp only [findLastNotOf]
      rw [ih (fun x hx => h x (by simp [hx]))]
      simp [h c (by simp)]

theorem fln_none_forall {bad : Char} :
    ∀ {l : Chars}, findLastNotOf l bad = none → ∀ c ∈ l, c = bad := by
  intro l
  induction l with
  | nil => intro h c hc; simp at hc
  | cons c t ih =>
      intro h x hx
      rcases he : findLastNotOf t bad with _ | p
      · simp only [findLastNotOf, he] at h
        by_cases hc : c = bad
        · rcases List.mem_cons.mp hx with hx2 | hx2
          · rw [hx2]; exact hc
          · exact ih he x hx2
        · simp [hc] at h
      · obtain ⟨i, d⟩ := p
        simp only [findLastNotOf, he] at h
        simp at h

theorem fln_append_some {l1 l2 : Chars} {bad d : Char} {i : Nat}
    (h : findLastNotOf l2 bad = some (i, d)) :
    findLastNotOf (l1 ++ l2) bad = some (l1.length + i, d) := by
  induction l1 with
  | nil => simpa using h
  | cons c t ih =>
      simp only [List.cons_append, findLastNotOf, List.length_cons, List.append_eq]
      rw [ih]
      simp
      omega

theorem fln_mem {bad : Char} :
    ∀ {l : Chars} {i : Nat} {d : Char},
      findLastNotOf l bad = some (i, d) → d ∈ l ∧ d ≠ bad := by
  intro l
  induction l with
  | nil => intro i d h; simp [findLastNotOf] at h
  | cons c t ih =>
      intro i d h
      simp only [findLastNotOf] at h
      rcases he : findLastNotOf t bad with _ | p
      · rw [he] at h
        by_cases hc : c = bad
        · simp [hc] at h
        · simp [hc] at h
          rcases h with ⟨h1, h2⟩
          rw [← h2]
          exact ⟨by simp, hc⟩
      · rw [he] at h
        obtain ⟨i2, d2⟩ := p
        simp at h
        rcases h with ⟨h1, h2⟩
        have := ih he
        rw [← h2]
        exact ⟨by simp [this.1], this.2⟩

theorem fln_isSome_of_not_all {l : Chars} {bad : Char}
    (h : ¬ ∀ c ∈ l, c = bad) : ∃ i d, findLastNotOf l bad = some (i, d) := by
  rcases he : findLastNotOf l bad with _ | p
  · exact absurd (fln_none_forall he) h
  · obtain ⟨i, d⟩ := p
    exact ⟨i, d, rfl⟩

theorem digitsVal_zeros_append (k : Nat) (ds : Chars) :
    digitsVal (List.replicate k '0' ++ ds) = digitsVal ds := by
  induction k with
  | zero => simp
  | succ n ih => simpa [digitsVal, List.replicate_succ] using ih

theorem takeWhile_all_digits {l : Chars} (h : ∀ c ∈ l, isDigitCh c = true) :
    l.takeWhile isDigitCh = l := by
  induction l with
  | nil => rfl
  | cons c t ih =>
      simp [List.takeWhile_cons, h c (by simp), ih (fun x hx => h x (by simp [hx]))]

theorem pad2_digits_val (n : Nat) :
    digitsVal ((padLeft (natDigits n) 2).takeWhile isDigitCh) = n := by
  rw [takeWhile_all_digits]
  · simp only [padLeft]
    rw [digitsVal_zeros_append, digitsVal_natDigits]
  · intro c hc
    simp only [padLeft, List.mem_append] at hc
    rcases hc with hc | hc
    · have := List.eq_of_mem_replicate hc
      rw [this]
      decide
    · exact natDigits_mem hc

theorem stoi_expChars (E : Int) : stoiChars (expChars E) = E := by
  by_cases hE : E < 0
  · simp only [expChars, if_pos hE, List.singleton_append]
    rw [show stoiChars ('-' :: padLeft (natDigits E.natAbs) 2)
        = -(digitsVal ((padLeft (natDigits E.natAbs) 2).takeWhile isDigitCh) : Int) from rfl]
    rw [pad2_digits_val]
    omega
  · simp only [expChars, if_neg hE, List.singleton_append]
    rw [show stoiChars ('+' :: padLeft (natDigits E.natAbs) 2)
        = (digitsVal ((padLeft (natDigits E.natAbs) 2).takeWhile isDigitCh) : Int) from rfl]
    rw [pad2_digits_val]
    omega

end cctoml

namespace cctoml

theorem digit_ne_e {c : Char} (h : isDigitCh c = true) : c ≠ 'e' ∧ c ≠ 'E' :=
  ⟨isDigitCh_ne h (by decide), isDigitCh_ne h (by decide)⟩

theorem sciPost_assembled (sgn A D : Chars) (E : Int)
    (hsgn : sgn = [] ∨ sgn = ['-'])
    (hA : ∀ c ∈ A, isDigitCh c = true) (hD : ∀ c ∈ D, isDigitCh c = true) :
    sciPost (sgn ++ A ++ '.' :: D ++ 'e' :: expChars E)
      = sgn ++ (if D.all (fun c => c == '0') then A else A ++ '.' :: D)
          ++ 'e' :: intChars E := by
  have hpre : ∀ c ∈ sgn ++ A ++ '.' :: D, c ≠ 'e' ∧ c ≠ 'E' := by
    intro c hc
    simp only [List.mem_append, List.mem_cons] at hc
    rcases hc with (hc | hc) | hc | hc
    · rcases hsgn with h | h <;> rw [h] at hc <;> simp at hc
      · rw [hc]; decide
    · exact digit_ne_e (hA c hc)
    · rw [hc]; decide
    · exact digit_ne_e (hD c hc)
  have hassoc : sgn ++ A ++ '.' :: D ++ 'e' :: expChars E
      = (sgn ++ A ++ '.' :: D) ++ 'e' :: expChars E := by
    simp
  rw [hassoc]
  simp only [sciPost]
  rw [ffe_append hpre]
  have htake : ((sgn ++ A ++ '.' :: D) ++ 'e' :: expChars E).take
      (sgn ++ A ++ '.' :: D).length = sgn ++ A ++ '.' :: D := List.take_left _ _
  have hdrop : ((sgn ++ A ++ '.' :: D) ++ 'e' :: expChars E).drop
      ((sgn ++ A ++ '.' :: D).length + 1) = expChars E := by
    rw [show (sgn ++ A ++ '.' :: D) ++ 'e' :: expChars E
        = ((sgn ++ A ++ '.' :: D) ++ ['e']) ++ expChars E by simp]
    rw [show (sgn ++ A ++ '.' :: D).length + 1
        = ((sgn ++ A ++ '.' :: D) ++ ['e']).length by simp +arith]
    exact List.drop_left _ _
  simp only [htake, hdrop]
  rw [stoi_expChars]
  by_cases hall : ∀ c ∈ D, c = '0'
  · have hflndrop : findLastNotOf ('.' :: D) '0' = some (0, '.') := by
      simp only [findLastNotOf]
      rw [fln_none_of_all hall]
      decide
    have hfln : findLastNotOf (sgn ++ A ++ '.' :: D) '0'
        = some ((sgn ++ A).length + 0, '.') := by
      rw [show sgn ++ A ++ '.' :: D = (sgn ++ A) ++ '.' :: D by simp]
      exact fln_append_some hflndrop
    have hcond : D.all (fun c => c == '0') = true := by
      simp only [List.all_eq_true, beq_iff_eq]
      exact hall
    rw [hfln, hcond]
    have htake2 : (sgn ++ (A ++ '.' :: D)).take (sgn.length + A.length) = sgn ++ A := by
      rw [show sgn ++ (A ++ '.' :: D) = (sgn ++ A) ++ '.' :: D by simp]
      rw [show sgn.length + A.length = (sgn ++ A).length by simp]
      exact List.take_left _ _
    simp [htake2]
  · obtain ⟨i, d, hd⟩ := fln_isSome_of_not_all hall
    have hdmem := fln_mem hd
    have hddig : isDigitCh d = true := hD d hdmem.1
    have hdnotdot : d ≠ '.' := isDigitCh_ne hddig (by decide)
    have hflndrop : findLastNotOf ('.' :: D) '0' = some (i + 1, d) := by
      simp only [findLastNotOf]
      rw [hd]
    have hfln : findLastNotOf (sgn ++ A ++ '.' :: D) '0'
        = some ((sgn ++ A).length + (i + 1), d) := by
      rw [show sgn ++ A ++ '.' :: D = (sgn ++ A) ++ '.' :: D by simp]
      exact fln_append_some hflndrop
    have hcond : D.all (fun c => c == '0') = false := by
      rw [List.all_eq_false]
      exact ⟨d, hdmem.1, by simp [hdmem.2]⟩
    rw [hfln, hcond]
    simp only [if_neg hdnotdot]
    simp

/-- C7 (amended): for every nonzero finite double in the scientific range,
stringifyDouble emits the sign, the precision-15 scientific mantissa with
its fractional part kept in full unless it is all zeros (in which case the
fraction and the decimal dot are dropped), then a lowercase e and the
exponent with no plus sign and no leading zeros. -/
theorem c7_scientific_format (q : Q) (h0 : ¬ q.num = 0) (hs : useScientificB q = true) :
    stringifyDouble (.finite q) = sciSpec q := by
  simp only [stringifyDouble, hs, if_true]
  simp only [sci15, sciSpec, if_neg h0]
  apply sciPost_assembled
  · by_cases hneg : qNegB q <;> simp [hneg]
  · intro c hc
    exact natDigits_mem (List.take_subset 1 _ hc)
  · intro c hc
    exact natDigits_mem (List.drop_subset 1 _ hc)

end cctoml

namespace cctoml

theorem rne_int (m : Int) : rne ⟨m, 1⟩ = m := by
  simp [rne]

/-- C8 (amended): a double holding an integer of magnitude below 10^6 is
formatted in fixed notation with exactly one fractional digit: its decimal
digits followed by a dot and a zero. -/
theorem c8_integer_fixed_format (n : Int) (h : n.natAbs < 10 ^ 6) :
    stringifyDouble (.finite (qOfInt n)) = intChars n ++ ['.', '0'] := by
  have husc : useScientificB (qOfInt n) = false := by
    simp only [useScientificB, qLE, qLT, qAbs, qOfInt, Bool.or_eq_false_iff,
      Bool.and_eq_false_iff, decide_eq_false_iff_not, decide_eq_true_eq]
    constructor <;> omega
  have hint : isIntegerValueB (qOfInt n) = true := by
    simp only [isIntegerValueB, qIsIntB, qLT, qAbs, qOfInt, Bool.and_eq_true,
      decide_eq_true_eq]
    constructor <;> omega
  simp only [stringifyDouble, husc, hint, Bool.false_eq_true, if_false, if_true]
  simp only [fixed1, qMulPow10, qAbs, qOfInt]
  norm_num
  rw [rne_int]
  have ht : ((|n| : Int) * 10).toNat = n.natAbs * 10 := by
    rw [Int.abs_eq_natAbs]
    omega
  rw [ht]
  rw [Nat.mul_div_cancel _ (by omega), Nat.mul_mod_left]
  simp only [qNegB, intChars]
  rw [show natDigits 0 = ['0'] from rfl]
  simp

end cctoml

namespace cctoml

namespace TomlValue

theorem getD_append_replicate (xs : List TomlValue) (n : Nat) (d : TomlValue)
    (h1 : xs.length ≤ n) :
    (xs ++ List.replicate (n + 1 - xs.length) d).getD n d = d := by
  have h2 : n - xs.length < n + 1 - xs.length := by omega
  simp [List.getD, List.getElem?_append_right h1, List.getElem?_replicate, h2]

/-- C9: non-const integral indexing of an array value never fails for a
non-negative index: past-the-end indexing resizes the array to index+1,
filling with default-constructed empty tables, and returns the referenced
(default) element; in-range indexing returns the element with the array
unchanged; a negative index or a non-array receiver throws a
TomlException; the const overload instead throws on any out-of-range
index and succeeds exactly in range. -/
theorem c9_integral_index (xs : List TomlValue) (i : Int) (v : TomlValue) :
    (0 ≤ i → xs.length ≤ i.toNat →
      indexMut (.array xs) i =
        .ok (.array (xs ++ List.replicate (i.toNat + 1 - xs.length) defaultV),
             defaultV) ∧
      (xs ++ List.replicate (i.toNat + 1 - xs.length) defaultV).length =
        i.toNat + 1) ∧
    (0 ≤ i → i.toNat < xs.length →
      indexMut (.array xs) i = .ok (.array xs, xs.getD i.toNat defaultV)) ∧
    (i < 0 → indexMut (.array xs) i = .error (.te .negativeArrayIndex)) ∧
    (isArrayB v = false → indexMut v i = .error (.te .notAArray)) ∧
    ((i < 0 ∨ xs.length ≤ i.toNat) →
      indexConst (.array xs) i = .error (.te .arrayIndexOutOfRange)) ∧
    (0 ≤ i → i.toNat < xs.length →
      indexConst (.array xs) i = .ok (xs.getD i.toNat defaultV)) := by
  refine ⟨?_, ?_, ?_, ?_, ?_, ?_⟩
  · intro h1 h2
    refine ⟨?_, by simp; omega⟩
    simp only [indexMut, asArrayE, if_pos h1, if_pos h2]
    rw [getD_append_replicate xs i.toNat defaultV h2]
  · intro h1 h2
    simp only [indexMut, asArrayE, if_pos h1, if_neg (by omega : ¬ xs.length ≤ i.toNat)]
  · intro h1
    simp only [indexMut, asArrayE, if_neg (by omega : ¬ 0 ≤ i)]
  · intro h1
    cases v <;> simp_all [indexMut, asArrayE, isArrayB]
  · intro h1
    simp only [indexConst, asArrayE, if_neg (by omega : ¬ (0 ≤ i ∧ i.toNat < xs.length))]
  · intro h1 h2
    simp only [indexConst, asArrayE, if_pos (And.intro h1 h2)]

/-- Witness for C9 at concrete arrays and indices. -/
theorem c9_integral_index_witness :
    indexMut (TomlValue.array [TomlValue.boolean true]) 2 =
      .ok (.array [TomlValue.boolean true, defaultV, defaultV], defaultV) ∧
    indexMut (TomlValue.array [TomlValue.boolean true]) 0 =
      .ok (.array [TomlValue.boolean true], TomlValue.boolean true) ∧
    indexMut (TomlValue.array [TomlValue.boolean true]) (-1) =
      .error (.te .negativeArrayIndex) ∧
    indexMut (TomlValue.boolean true) 0 = .error (.te .notAArray) ∧
    indexConst (TomlValue.array [TomlValue.boolean true]) 1 =
      .error (.te .arrayIndexOutOfRange) ∧
    indexConst (TomlValue.array [TomlValue.boolean true]) 0 =
      .ok (TomlValue.boolean true) := by
  refine ⟨?_, ?_, ?_, ?_, ?_, ?_⟩
  · exact ((c9_integral_index [TomlValue.boolean true] 2 defaultV).1 (by decide)
      (by simp)).1
  · exact (c9_integral_index [TomlValue.boolean true] 0 defaultV).2.1 (by decide) (by simp)
  · exact (c9_integral_index [TomlValue.boolean true] (-1) defaultV).2.2.1 (by decide)
  · exact (c9_integral_index [] 0 (TomlValue.boolean true)).2.2.2.1 rfl
  · exact (c9_integral_index [TomlValue.boolean true] 1 defaultV).2.2.2.2.1
      (Or.inr (by simp))
  · exact (c9_integral_index [TomlValue.boolean true] 0 defaultV).2.2.2.2.2 (by decide)
      (by simp)

/-- C10: insert and push_back never raise on a type mismatch: a non-object
receiver of insert (a non-array receiver of push_back) is destroyed and
converted in place to an empty object (array), losing its original
contents, before the insertion; a matching receiver is extended in
place. -/
theorem c10_insert_push_back_convert (v : TomlValue) (key : Chars) (val : TomlValue) :
    (isObjectB v = false → insert v key val = .object [(key, val)]) ∧
    (isArrayB v = false → push_back v val = .array [val]) ∧
    (∀ m, insert (.object m) key val = .object (objSet m key val)) ∧
    (∀ xs, push_back (.array xs) val = .array (xs ++ [val])) := by
  refine ⟨?_, ?_, fun m => rfl, fun xs => rfl⟩
  · intro h; cases v <;> simp_all [insert, isObjectB, objSet]
  · intro h; cases v <;> simp_all [push_back, isArrayB]

/-- Witness for C10 at a boolean receiver. -/
theorem c10_insert_push_back_convert_witness :
    insert (TomlValue.boolean true) (['k']) (TomlValue.integer 1) =
      .object [((['k']), TomlValue.integer 1)] ∧
    push_back (TomlValue.boolean true) (TomlValue.integer 1) =
      .array [TomlValue.integer 1] :=
  ⟨(c10_insert_push_back_convert (TomlValue.boolean true) (['k']) (TomlValue.integer 1)).1 rfl,
   (c10_insert_push_back_convert (TomlValue.boolean true) (['k']) (TomlValue.integer 1)).2.1 rfl⟩

end TomlValue

end cctoml

namespace cctoml

theorem isDigitCh_digitChar {d : Nat} (h : d < 10) : isDigitCh (Nat.digitChar d) = true := by
  interval_cases d <;> decide

theorem digitChar_ne_colon {d : Nat} (h : d < 10) : ¬ (Nat.digitChar d = ':') := by
  interval_cases d <;> decide

/-- C1: counterexample to the TOML round-trip property: the document parsed
from a valid input whose double x is 10000000.000000002 serializes to a
text that re-parses to a different document (x becomes exactly 10^7), so
parse of stringify of d is not d. -/
theorem c1_toml_roundtrip_fails :
    parser.parse inputC1 = .ok docC1 ∧
    parser.stringify 32 docC1 = outputC1 ∧
    parser.parse outputC1 = .ok docC1Again ∧
    docC1Again ≠ docC1 := by
  refine ⟨rfl, rfl, rfl, ?_⟩
  simp [docC1, docC1Again]

/-- C2: the parser accepts a second identical table header and merges the
two bodies instead of raising the table-redefinition error; a duplicate
leaf key under the re-opened table still errors. -/
theorem c2_table_redefinition_merges :
    parser.parse inputC2 = .ok docC2 ∧
    isOkE (parser.parse inputC2dup) = false :=
  ⟨rfl, rfl⟩

/-- C3: inline tables are not closed: the input binding b to an inline
table and then extending it with a dotted key b.d parses successfully, to
the same document as the all-dotted form, instead of raising a parse
error. -/
theorem c3_inline_table_extension_allowed :
    parser.parse inputC3b = .ok docC3 ∧
    parser.parse inputC3a = .ok docC3 :=
  ⟨rfl, rfl⟩

/-- C4: a duplicate key inside an inline table is not rejected: the second
binding of a inside one inline table overwrites the first and the parse
succeeds, though the same duplicate at top level does raise a parse
error. -/
theorem c4_inline_duplicate_key_overwrites :
    parser.parse inputC4 = .ok docC4 ∧
    isOkE (parser.parse inputC4top) = false :=
  ⟨rfl, rfl⟩

/-- C5: a sign-adjacent underscore is accepted: x = -_1 parses successfully
to the integer -1, though leading, doubled, dot-adjacent and
exponent-adjacent underscores do raise parse errors. -/
theorem c5_sign_underscore_accepted :
    parser.parse inputC5 = .ok docC5 ∧
    isOkE (parser.parse inputC5b) = false ∧
    isOkE (parser.parse inputC5c) = false ∧
    isOkE (parser.parse inputC5d) = false :=
  ⟨rfl, rfl, rfl, rfl⟩

set_option maxHeartbeats 1000000 in
/-- C6: parsing the date dddd-02-29 succeeds exactly when the four-digit
year is a Gregorian leap year (divisible by 4 and, when divisible by 100,
also by 400); concretely 2000-02-29T10:00:00Z parses as an offset
date-time while 2001-02-29T00:00:00Z is a parse error. -/
theorem c6_feb29_leap_year (d1 d2 d3 d4 : Nat) (h1 : d1 < 10) (h2 : d2 < 10)
    (h3 : d3 < 10) (h4 : d4 < 10) :
    (isOkE (TomlDate.parse (yearFeb29 d1 d2 d3 d4)) = true ↔
      ((((d1 * 10 + d2) * 10 + d3) * 10 + d4) % 4 = 0
        ∧ ((((d1 * 10 + d2) * 10 + d3) * 10 + d4) % 100 ≠ 0
            ∨ (((d1 * 10 + d2) * 10 + d3) * 10 + d4) % 400 = 0))) ∧
    parser.parse inputC6ok = .ok docC6 ∧
    isOkE (parser.parse inputC6bad) = false := by
  refine ⟨?_, rfl, rfl⟩
  simp [TomlDate.parse, TomlDate.parseDateTime, TomlDate.ParseDigits,
    TomlDate.ParseDigitsGo, TomlDate.parseLocalTime, TomlDate.daysInMonth,
    chAt, yearFeb29, isOkE,
    isDigitCh_digitChar h1, isDigitCh_digitChar h2, isDigitCh_digitChar h3,
    isDigitCh_digitChar h4, cbyte_digitChar h1, cbyte_digitChar h2,
    cbyte_digitChar h3, cbyte_digitChar h4, digitChar_ne_colon h3,
    (by decide : isDigitCh '0' = true), (by decide : isDigitCh '2' = true),
    (by decide : isDigitCh '9' = true),
    (by decide : cbyte '0' = 48), (by decide : cbyte '2' = 50),
    (by decide : cbyte '9' = 57)]
  split_ifs with hc <;> simp <;> omega

/-- Witness for C6 at the leap year 2000. -/
theorem c6_feb29_leap_year_witness :
    isOkE (TomlDate.parse (yearFeb29 2 0 0 0)) = true :=
  ((c6_feb29_leap_year 2 0 0 0 (by decide) (by decide) (by decide)
      (by decide)).1).mpr (by decide)

/-- Counterexample to the original wording of C7: 1230000.0 serializes with
the full fifteen-digit fraction, not with its trailing zeros trimmed. -/
theorem c7_counterexample :
    stringifyDouble (.finite ⟨1230000, 1⟩) = ("1.230000000000000e6").toList ∧
    ("1.230000000000000e6").toList ≠ ("1.23e6").toList :=
  ⟨rfl, by decide⟩

/-- Witness for C7 at the double 1230000.0. -/
theorem c7_scientific_format_witness :
    stringifyDouble (.finite ⟨1230000, 1⟩) = sciSpec ⟨1230000, 1⟩ :=
  c7_scientific_format ⟨1230000, 1⟩ (by decide) (by rfl)

/-- Counterexample to the original wording of C8: the integer-valued double
2000000.0 reaches the scientific branch, not the fixed branch with a
trailing dot-zero. -/
theorem c8_counterexample :
    stringifyDouble (.finite (qOfInt 2000000)) = ("2e6").toList ∧
    ("2e6").toList ≠ ("2000000.0").toList :=
  ⟨rfl, by decide⟩

/-- Witness for C8 at the double 2.0. -/
theorem c8_integer_fixed_format_witness :
    stringifyDouble (.finite (qOfInt 2)) = intChars 2 ++ ['.', '0'] :=
  c8_integer_fixed_format 2 (by decide)

end cctoml
